import Mathlib

/-!
# Verification of the translation-proxy pipeline

Shallow embedding of the `tdat-dev/proxy-server` repository, which contains
two deployment targets of the same translation-proxy logic:

* an Express server (`server.js`, here called the *server* model), and
* a Cloudflare Worker (`worker.js`, here called the *worker* model).

JavaScript strings are modelled as `List Char`; JavaScript's whitespace
class `\s` (as used by `String.prototype.trim` and the `/\s+/` regex) is
modelled over the ASCII whitespace characters.  Machine timestamps
(`Date.now()`) are modelled as `Int` milliseconds.  The external Gemini
capabilities (language detection, translation) are modelled as oracles of
type `Except`: `.error` is a thrown error / failed HTTP response, `.ok s`
is a successful response with body text `s`.  The SHA-1 content
fingerprint used for cache keys is modelled as the (injective) tuple of
its preimage fields, which is faithful up to hash collisions.
-/

namespace ProxyServer

/-- ASCII whitespace, modelling the JavaScript `\s` class restricted to
ASCII (space, tab, newline, carriage return, vertical tab, form feed). -/
def isWs (c : Char) : Bool :=
  c = ' ' || c = '\t' || c = '\n' || c = '\r' || c = '\x0b' || c = '\x0c'

/-- Remove the trailing whitespace run, second half of JS `trim()`. -/
def trimRightRec : List Char → List Char
  | [] => []
  | c :: cs =>
    match trimRightRec cs with
    | [] => if isWs c then [] else [c]
    | r => c :: r

/-- JavaScript `String.prototype.trim`: strip leading and trailing
whitespace. -/
def trim (l : List Char) : List Char :=
  trimRightRec (l.dropWhile isWs)

/-- Helper for `collapseWs`; the flag records whether the previous kept
character position was inside a whitespace run. -/
def collapseWsAux : Bool → List Char → List Char
  | _, [] => []
  | prevWs, c :: cs =>
    if isWs c then
      if prevWs then collapseWsAux true cs
      else ' ' :: collapseWsAux true cs
    else c :: collapseWsAux false cs

/-- JavaScript `replace(/\s+/g, " ")`: each maximal whitespace run becomes
a single space. -/
def collapseWs (l : List Char) : List Char :=
  collapseWsAux false l

/-- Core of `split("\n")`: returns (first line, remaining lines). -/
def segsCore : List Char → List Char × List (List Char)
  | [] => ([], [])
  | c :: cs =>
    let r := segsCore cs
    if c = '\n' then ([], r.1 :: r.2) else (c :: r.1, r.2)

/-- JavaScript `split("\n")`.  Always returns at least one segment. -/
def segs (l : List Char) : List (List Char) :=
  (segsCore l).1 :: (segsCore l).2

/-- JavaScript `join("\n")`. -/
def joinNl : List (List Char) → List Char
  | [] => []
  | [m] => m
  | m :: m' :: ms => m ++ '\n' :: joinNl (m' :: ms)

/-- Number of newline-delimited lines of a text, `split("\n").length`. -/
def countLines (l : List Char) : Nat :=
  (segs l).length

/-- Helper for `collapseNl`; the counter is the number of pending
newlines of the current run. -/
def collapseNlAux : Nat → List Char → List Char
  | k, [] => if k ≥ 3 then ['\n', '\n'] else List.replicate k '\n'
  | k, c :: cs =>
    if c = '\n' then collapseNlAux (k + 1) cs
    else (if k ≥ 3 then ['\n', '\n'] else List.replicate k '\n')
          ++ c :: collapseNlAux 0 cs

/-- JavaScript `replace(/\n{3,}/g, "\n\n")`: each maximal run of three or
more newlines becomes exactly two newlines. -/
def collapseNl (l : List Char) : List Char :=
  collapseNlAux 0 l

/-- Whether the text contains three consecutive newlines (i.e. whether
the `/\n{3,}/` regex of the server normalizer has a match). -/
def hasTripleNl : List Char → Bool
  | [] => false
  | [_] => false
  | [_, _] => false
  | a :: b :: c :: rest =>
    (a = '\n' && b = '\n' && c = '\n') || hasTripleNl (b :: c :: rest)

/-- Per-line step of the server normalizer:
`line.trim().replace(/\s+/g, " ")`. -/
def lineNorm (l : List Char) : List Char :=
  collapseWs (trim l)

/-- Per-line normalized text of the server normalizer before blank-line
collapsing: `text.split("\n").map(...).join("\n")`. -/
def joinNorm (l : List Char) : List Char :=
  joinNl ((segs l).map lineNorm)

/-- `normalizeText` of the Express server (`server.js`): per-line trim
and whitespace collapse, then runs of 3+ newlines become 2. -/
def normalizeText (l : List Char) : List Char :=
  collapseNl (joinNorm l)

/-- `normalizeText` of the Cloudflare Worker (`worker.js`):
`text.trim().replace(/\s+/g, " ")` over the whole text, newlines
included. -/
def normalizeTextWorker (l : List Char) : List Char :=
  collapseWs (trim l)

/-! ## Request bodies and JavaScript values

A JSON field of a request body is either a string, absent
(`undefined`), or some non-string value; for non-strings only JS
truthiness is observable by the code under study, so they are modelled
by two tokens. -/

/-- A JavaScript value as observed by the handlers' checks:
a string, an absent field, or a non-string value (split by
truthiness; e.g. `otherTruthy` stands for the number `5`,
`otherFalsy` for `0` or `null`). -/
inductive JVal where
  | str (s : List Char)
  | absent
  | otherTruthy
  | otherFalsy
deriving DecidableEq, Repr

/-- JavaScript truthiness of a `JVal` (`""`, `undefined`, `null`, `0`
are falsy). -/
def JVal.truthy : JVal → Bool
  | .str s => !s.isEmpty
  | .absent => false
  | .otherTruthy => true
  | .otherFalsy => false

/-- The body of a `POST /translate` request,
`{ text, sourceLang = "auto", targetLang, provider }`.  `sourceLang` is
modelled as an optional string (the code only ever compares it with
string literals); the other fields keep full JS-value generality. -/
structure RawBody where
  text : JVal
  sourceLang : Option (List Char)
  targetLang : JVal
  provider : JVal
deriving DecidableEq, Repr

/-- The string literal `"auto"`. -/
def autoStr : List Char := 'a' :: 'u' :: 't' :: 'o' :: []

/-- The string literal `"en"`. -/
def enStr : List Char := 'e' :: 'n' :: []

/-- The string literal `"gemini"`, the single accepted provider. -/
def geminiStr : List Char := 'g' :: 'e' :: 'm' :: 'i' :: 'n' :: 'i' :: []

/-- The resolved source-language field:
`const { sourceLang = "auto" } = body`. -/
def RawBody.source (b : RawBody) : List Char :=
  b.sourceLang.getD autoStr

/-! ## Language detection -/

/-- Lower-case ASCII letter test, one character of the `/^[a-z]{2}$/`
pattern. -/
def isLowerAlpha (c : Char) : Bool :=
  'a' ≤ c && c ≤ 'z'

/-- The `/^[a-z]{2}$/.test(s)` validation of a detected language code:
exactly two lowercase ASCII letters. -/
def isTwoLetterLower : List Char → Bool
  | [a, b] => isLowerAlpha a && isLowerAlpha b
  | _ => false

/-- `detectLanguage` of the Express server.  The oracle is the Gemini
detection capability: `.error` models a thrown error anywhere inside the
`try` block, `.ok s` models `result.response.text()`.  The code trims
and lowercases the response, validates it against `/^[a-z]{2}$/`, and
falls back to `"en"` on a non-conforming response or a thrown error. -/
def detectLanguageServer (oracle : Except Unit (List Char)) : List Char :=
  match oracle with
  | .error _ => enStr
  | .ok s =>
    let d := (trim s).map Char.toLower
    if isTwoLetterLower d then d else enStr

/-- `detectLanguage` of the Cloudflare Worker.  Unlike the server
version there is no `try`/`catch`: a failed detection response
(`!response.ok`) throws, and only a non-conforming response text falls
back to `"en"`. -/
def detectLanguageWorker (oracle : Except (List Char) (List Char)) :
    Except (List Char) (List Char) :=
  match oracle with
  | .error e => .error e
  | .ok s =>
    let d := (trim s).map Char.toLower
    .ok (if isTwoLetterLower d then d else enStr)

/-! ## Cache store -/

/-- A cache entry `{ translation, timestamp }` as stored by both
handlers. -/
structure CacheEntry where
  translation : List Char
  timestamp : Int
deriving DecidableEq, Repr

/-- A cache key.  The code hashes
`JSON.stringify({text, sourceLang, targetLang, provider})` with SHA-1;
the fingerprint is modelled by the tuple itself (injective, i.e.
collision-free). -/
structure CacheKey where
  text : List Char
  sourceLang : List Char
  targetLang : JVal
  provider : JVal
deriving DecidableEq, Repr

/-- The in-memory cache map, modelled as an association list. -/
def CacheMap := List (CacheKey × CacheEntry)

instance : DecidableEq CacheMap := by
  unfold CacheMap
  infer_instance

/-- `translationCache.get(key)` on the association-list model. -/
def lookupCache (m : CacheMap) (k : CacheKey) : Option CacheEntry :=
  (m.find? (fun p => p.1 = k)).map (·.2)

/-- `translationCache.set(key, entry)`: unconditional overwrite. -/
def putCache (m : CacheMap) (k : CacheKey) (e : CacheEntry) : CacheMap :=
  (k, e) :: m.filter (fun p => p.1 ≠ k)

/-- `CACHE_TTL_MS` of the Express server with its default
`CACHE_TTL_HOURS` of 72: `72 * 60 * 60 * 1000` milliseconds. -/
def CACHE_TTL_MS : Int := 72 * 60 * 60 * 1000

/-- The Express server's TTL-checked cache read (`server.js`):
`const cached = translationCache.get(cacheKey)` followed by the guard
`cached && Date.now() - cached.timestamp < CACHE_TTL_MS`; an absent or
stale entry is a miss. -/
def cacheGet (m : CacheMap) (k : CacheKey) (now : Int) : Option CacheEntry :=
  match lookupCache m k with
  | some e => if now - e.timestamp < CACHE_TTL_MS then some e else none
  | none => none

/-! ## Rate limiter (Cloudflare Worker) -/

/-- `RATE_LIMIT_WINDOW` of the worker, in seconds. -/
def RATE_LIMIT_WINDOW : Int := 60

/-- `RATE_LIMIT_MAX` of the worker: requests per window. -/
def RATE_LIMIT_MAX : Nat := 60

/-- The per-client fixed-window state `{ count, windowStart }` stored
under `ratelimit:<ip>`. -/
structure RLEntry where
  count : Nat
  windowStart : Int
deriving DecidableEq, Repr

/-- Result shape of `checkRateLimit`. -/
structure RLResult where
  allowed : Bool
  remaining : Int
  retryAfter : Option Int
deriving DecidableEq, Repr

/-- `checkRateLimit` of the worker, as a pure function from the stored
state (`none` = no entry for this client) and the current time to the
result and the new stored state.  The window test in the code is
`data.windowStart < now - RATE_LIMIT_WINDOW * 1000`. -/
def checkRateLimit (st : Option RLEntry) (now : Int) :
    RLResult × Option RLEntry :=
  match st with
  | none =>
    (⟨true, (RATE_LIMIT_MAX : Int) - 1, none⟩, some ⟨1, now⟩)
  | some data =>
    if data.windowStart < now - RATE_LIMIT_WINDOW * 1000 then
      (⟨true, (RATE_LIMIT_MAX : Int) - 1, none⟩, some ⟨1, now⟩)
    else if data.count ≥ RATE_LIMIT_MAX then
      (⟨false, 0, some RATE_LIMIT_WINDOW⟩, some data)
    else
      (⟨true, (RATE_LIMIT_MAX : Int) - (data.count : Int) - 1, none⟩,
        some ⟨data.count + 1, data.windowStart⟩)

/-- Modelled from the spec: the rate-limiter algorithm exactly as the
spec words it, with a new window started when
`now - windowStart >= windowDuration` (the code under `src/` uses a
strict inequality instead; this definition exists to compare the two). -/
def specCheckRateLimit (st : Option RLEntry) (now : Int) :
    RLResult × Option RLEntry :=
  match st with
  | none =>
    (⟨true, (RATE_LIMIT_MAX : Int) - 1, none⟩, some ⟨1, now⟩)
  | some data =>
    if now - data.windowStart ≥ RATE_LIMIT_WINDOW * 1000 then
      (⟨true, (RATE_LIMIT_MAX : Int) - 1, none⟩, some ⟨1, now⟩)
    else if data.count ≥ RATE_LIMIT_MAX then
      (⟨false, 0, some RATE_LIMIT_WINDOW⟩, some data)
    else
      (⟨true, (RATE_LIMIT_MAX : Int) - (data.count : Int) - 1, none⟩,
        some ⟨data.count + 1, data.windowStart⟩)

/-- The worker's amended reset rule: a new window starts exactly when
`now - windowStart` strictly exceeds the window duration. -/
def strictCheckRateLimit (st : Option RLEntry) (now : Int) :
    RLResult × Option RLEntry :=
  match st with
  | none =>
    (⟨true, (RATE_LIMIT_MAX : Int) - 1, none⟩, some ⟨1, now⟩)
  | some data =>
    if now - data.windowStart > RATE_LIMIT_WINDOW * 1000 then
      (⟨true, (RATE_LIMIT_MAX : Int) - 1, none⟩, some ⟨1, now⟩)
    else if data.count ≥ RATE_LIMIT_MAX then
      (⟨false, 0, some RATE_LIMIT_WINDOW⟩, some data)
    else
      (⟨true, (RATE_LIMIT_MAX : Int) - (data.count : Int) - 1, none⟩,
        some ⟨data.count + 1, data.windowStart⟩)

/-- Feed a sequence of request times through `checkRateLimit`,
returning the list of `allowed` flags and the final state. -/
def runRateLimit (st : Option RLEntry) : List Int → List Bool × Option RLEntry
  | [] => ([], st)
  | t :: ts =>
    let (r, st') := checkRateLimit st t
    let (bs, stF) := runRateLimit st' ts
    (r.allowed :: bs, stF)

/-! ## Responses and the two `/translate` handlers -/

/-- Which error a non-success response reports (the code distinguishes
them by their message strings). -/
inductive ErrKind where
  | badText
  | badTarget
  | badProvider
  | rateLimited
  | configError
  | serviceError
deriving DecidableEq, Repr

/-- The JSON response of the `/translate` endpoint: either the success
shape `{translation, cached, detectedSourceLang}` (HTTP 200) or an error
with its HTTP status. -/
inductive Resp where
  | ok (translation : List Char) (cached : Bool) (detectedSourceLang : List Char)
  | err (status : Nat) (kind : ErrKind) (retryAfter : Option Int)
deriving DecidableEq, Repr

/-- The HTTP status of a response. -/
def Resp.status : Resp → Nat
  | .ok _ _ _ => 200
  | .err s _ _ => s

/-- The `cached` field of a success response. -/
def Resp.cachedFlag : Resp → Option Bool
  | .ok _ c _ => some c
  | .err _ _ _ => none

/-- The `translation` field of a success response. -/
def Resp.translationOf : Resp → Option (List Char)
  | .ok t _ _ => some t
  | .err _ _ _ => none

/-- `translateText` of the Express server: returns
`result.response.text().trim()`, and wraps any thrown error as
`Translation failed: <message>`. -/
def translateTextServer (oracle : Except (List Char) (List Char)) :
    Except (List Char) (List Char) :=
  match oracle with
  | .ok s => .ok (trim s)
  | .error m => .error (String.toList "Translation failed: " ++ m)

/-- JavaScript `haystack.includes(needle)`: substring containment. -/
def containsSub (needle : List Char) : List Char → Bool
  | [] => needle.isEmpty
  | c :: cs => needle.isPrefixOf (c :: cs) || containsSub needle cs

/-- The Express endpoint's catch-clause status mapping:
`"API key"` in the message gives 401, `"quota"` gives 429,
`"Translation failed"` gives 502, anything else 500. -/
def mapErrStatus (msg : List Char) : Nat :=
  if containsSub (String.toList "API key") msg then 401
  else if containsSub (String.toList "quota") msg then 429
  else if containsSub (String.toList "Translation failed") msg then 502
  else 500

/-- Observable outcome of one Express `/translate` handler run: the
response, the cache state after the run, and how often the detection
capability, the translation capability, and the cache lookup were
invoked. -/
structure ExOut where
  resp : Resp
  cache : CacheMap
  detectCalls : Nat
  translateCalls : Nat
  cacheLookups : Nat
deriving DecidableEq

/-- The Express `/translate` handler (`app.post("/translate", ...)` in
`server.js`), as a pure function of the request body, the cache state,
the current time and the two capability oracles.  Rate limiting is the
`express-rate-limit` middleware and runs before this handler, so a body
reaching this function has already passed it. -/
def handleTranslate (body : RawBody) (cache : CacheMap) (now : Int)
    (detect : Except Unit (List Char))
    (translate : Except (List Char) (List Char)) : ExOut :=
  match body.text with
  | .str t =>
    if (trim t).isEmpty then ⟨.err 400 .badText none, cache, 0, 0, 0⟩
    else
      match body.targetLang with
      | .str tg =>
        if tg.isEmpty then ⟨.err 400 .badTarget none, cache, 0, 0, 0⟩
        else if body.provider ≠ .str geminiStr then
          ⟨.err 400 .badProvider none, cache, 0, 0, 0⟩
        else
          let normalized := normalizeText t
          let src := body.source
          let dCalls := if src = autoStr then 1 else 0
          let detected := if src = autoStr then detectLanguageServer detect else src
          if detected = tg then
            ⟨.ok normalized false detected, cache, dCalls, 0, 0⟩
          else
            let key : CacheKey := ⟨normalized, detected, .str tg, body.provider⟩
            match cacheGet cache key now with
            | some e => ⟨.ok e.translation true detected, cache, dCalls, 0, 1⟩
            | none =>
              match translateTextServer translate with
              | .ok tr =>
                ⟨.ok tr false detected, putCache cache key ⟨tr, now⟩,
                  dCalls, 1, 1⟩
              | .error m =>
                ⟨.err (mapErrStatus m) .serviceError none, cache, dCalls, 1, 1⟩
      | _ => ⟨.err 400 .badTarget none, cache, 0, 0, 0⟩
  | _ => ⟨.err 400 .badText none, cache, 0, 0, 0⟩

/-- The worker's cache read: `await env.TRANSLATION_CACHE.get(cacheKey)`
guarded by `cached && cached.translation` (an entry with an empty
translation string is falsy and treated as a miss; the worker relies on
the KV store's native TTL and performs no age check of its own). -/
def workerCacheGet (m : CacheMap) (k : CacheKey) : Option CacheEntry :=
  match lookupCache m k with
  | some e => if e.translation.isEmpty then none else some e
  | none => none

/-- Observable outcome of one worker `/translate` run. -/
structure WOut where
  resp : Resp
  cache : CacheMap
  rl : Option RLEntry
  detectCalls : Nat
  translateCalls : Nat
  cacheLookups : Nat
deriving DecidableEq

/-- Continuation of the worker handler after the source language has
been resolved: short-circuit check, cache lookup, API-key check,
upstream call, cache store. -/
def workerRespond (body : RawBody) (cache : CacheMap) (rl : Option RLEntry)
    (now : Int) (apiKey : Option (List Char))
    (translate : Except (List Char) (List Char))
    (normalized detected : List Char) (dCalls : Nat) : WOut :=
  if body.targetLang = .str detected then
    ⟨.ok normalized false detected, cache, rl, dCalls, 0, 0⟩
  else
    let key : CacheKey := ⟨normalized, detected, body.targetLang, body.provider⟩
    match workerCacheGet cache key with
    | some e => ⟨.ok e.translation true detected, cache, rl, dCalls, 0, 1⟩
    | none =>
      match apiKey with
      | none => ⟨.err 500 .configError none, cache, rl, dCalls, 0, 1⟩
      | some _ =>
        match translate with
        | .error _ => ⟨.err 502 .serviceError none, cache, rl, dCalls, 1, 1⟩
        | .ok s =>
          let tr := trim s
          ⟨.ok tr false detected, putCache cache key ⟨tr, now⟩,
            rl, dCalls, 1, 1⟩

/-- The Cloudflare Worker's `POST /translate` branch (`fetch` in
`worker.js`) as a pure function.  Note the order: the rate limiter runs
first, then body validation, then (for `sourceLang == "auto"`) language
detection — whose thrown errors reach the surrounding `catch` and
become a 502 — then the short-circuit check, cache lookup, API-key
check and upstream call. -/
def workerTranslate (rlState : Option RLEntry) (body : RawBody)
    (cache : CacheMap) (now : Int) (apiKey : Option (List Char))
    (detect : Except (List Char) (List Char))
    (translate : Except (List Char) (List Char)) : WOut :=
  let rc := checkRateLimit rlState now
  if !rc.1.allowed then
    ⟨.err 429 .rateLimited rc.1.retryAfter, cache, rc.2, 0, 0, 0⟩
  else
    match body.text with
    | .str t =>
      if (trim t).isEmpty then ⟨.err 400 .badText none, cache, rc.2, 0, 0, 0⟩
      else if !body.targetLang.truthy then
        ⟨.err 400 .badTarget none, cache, rc.2, 0, 0, 0⟩
      else if body.provider ≠ .str geminiStr then
        ⟨.err 400 .badProvider none, cache, rc.2, 0, 0, 0⟩
      else
        let normalized := normalizeTextWorker t
        let src := body.source
        if src = autoStr then
          match detectLanguageWorker detect with
          | .error _ => ⟨.err 502 .serviceError none, cache, rc.2, 1, 0, 0⟩
          | .ok detected =>
            workerRespond body cache rc.2 now apiKey translate normalized detected 1
        else
          workerRespond body cache rc.2 now apiKey translate normalized src 0
    | _ => ⟨.err 400 .badText none, cache, rc.2, 0, 0, 0⟩

/-! ## Validation predicates

The checks performed by the two handlers' validation sequences,
extracted as named predicates for stating ordering properties. -/

/-- The `text` check of both handlers:
`!text || typeof text !== "string" || text.trim().length === 0`.  A
value passes exactly when it is a string that is non-empty after
trimming. -/
def textOk : JVal → Bool
  | .str t => !(trim t).isEmpty
  | _ => false

/-- The `targetLang` check of the Express server:
`!targetLang || typeof targetLang !== "string"`.  Passes exactly for
non-empty strings. -/
def targetOkServer : JVal → Bool
  | .str tg => !tg.isEmpty
  | _ => false

/-- The `provider` check of both handlers: `provider !== "gemini"`. -/
def providerOk (v : JVal) : Bool :=
  v = .str geminiStr

/-- Whether a detection-oracle outcome counts as failed for the Express
server: a thrown error, or a response that does not match
`/^[a-z]{2}$/` after trimming and lowercasing. -/
def detectFailedServer : Except Unit (List Char) → Bool
  | .error _ => true
  | .ok s => !isTwoLetterLower ((trim s).map Char.toLower)

/-! ## Lemmas: trimming and whitespace collapsing -/

theorem head?_dropWhile_not {p : Char → Bool} :
    ∀ {l : List Char} {c : Char}, (l.dropWhile p).head? = some c → p c = false := by
  intro l
  induction l with
  | nil => intro c h; simp [List.dropWhile] at h
  | cons a as ih =>
    intro c h
    by_cases hpa : p a
    · rw [List.dropWhile_cons_of_pos hpa] at h
      exact ih h
    · rw [List.dropWhile_cons_of_neg hpa] at h
      simp at h
      subst h
      simpa using hpa

theorem dropWhile_eq_self_of_head {p : Char → Bool} {l : List Char} {c : Char}
    (hh : l.head? = some c) (hc : p c = false) : l.dropWhile p = l := by
  cases l with
  | nil => simp at hh
  | cons a as =>
    simp at hh
    subst hh
    exact List.dropWhile_cons_of_neg (by simp [hc])

theorem head?_trimRightRec :
    ∀ {l : List Char} {c : Char}, (trimRightRec l).head? = some c → l.head? = some c := by
  intro l
  induction l with
  | nil => intro c h; simp [trimRightRec] at h
  | cons a as ih =>
    intro c h
    rw [trimRightRec] at h
    cases hr : trimRightRec as with
    | nil =>
      rw [hr] at h
      by_cases hw : isWs a
      · simp [hw] at h
      · simp [hw] at h
        simp [h]
    | cons r rs =>
      rw [hr] at h
      simp at h
      simp [h]

theorem getLast?_trimRightRec :
    ∀ {l : List Char} {c : Char},
      (trimRightRec l).getLast? = some c → isWs c = false := by
  intro l
  induction l with
  | nil => intro c h; simp [trimRightRec] at h
  | cons a as ih =>
    intro c h
    rw [trimRightRec] at h
    cases hr : trimRightRec as with
    | nil =>
      rw [hr] at h
      by_cases hw : isWs a
      · simp [hw] at h
      · simp [hw] at h
        subst h
        simpa using hw
    | cons r rs =>
      rw [hr] at h
      rw [List.getLast?_cons_cons] at h
      exact ih (hr ▸ h)

theorem trimRightRec_eq_self :
    ∀ {l : List Char} {c : Char},
      l.getLast? = some c → isWs c = false → trimRightRec l = l := by
  intro l
  induction l with
  | nil => intro c h _; simp at h
  | cons a as ih =>
    intro c h hc
    cases as with
    | nil =>
      simp at h
      subst h
      simp [trimRightRec, hc]
    | cons b bs =>
      rw [List.getLast?_cons_cons] at h
      have := ih h hc
      rw [trimRightRec, this]

theorem trim_head_not_ws {l : List Char} {c : Char}
    (h : (trim l).head? = some c) : isWs c = false := by
  have := head?_trimRightRec h
  exact head?_dropWhile_not this

theorem trim_getLast_not_ws {l : List Char} {c : Char}
    (h : (trim l).getLast? = some c) : isWs c = false :=
  getLast?_trimRightRec h

theorem trim_eq_self {l : List Char}
    (hh : ∀ c, l.head? = some c → isWs c = false)
    (hl : ∀ c, l.getLast? = some c → isWs c = false) : trim l = l := by
  cases l with
  | nil => rfl
  | cons a as =>
    have ha : isWs a = false := hh a rfl
    have hdrop : (a :: as).dropWhile isWs = a :: as :=
      dropWhile_eq_self_of_head rfl ha
    rw [trim, hdrop]
    cases hgl : (a :: as).getLast? with
    | none => simp at hgl
    | some c => exact trimRightRec_eq_self hgl (hl c hgl)

theorem collapseWsAux_cons_of_ws_true {a : Char} {as : List Char}
    (h : isWs a = true) :
    collapseWsAux true (a :: as) = collapseWsAux true as := by
  simp [collapseWsAux, h]

theorem collapseWsAux_cons_of_ws_false {a : Char} {as : List Char}
    (h : isWs a = true) :
    collapseWsAux false (a :: as) = ' ' :: collapseWsAux true as := by
  simp [collapseWsAux, h]

theorem collapseWsAux_cons_of_not_ws {a : Char} {as : List Char} (b : Bool)
    (h : isWs a = false) :
    collapseWsAux b (a :: as) = a :: collapseWsAux false as := by
  simp [collapseWsAux, h]

theorem collapseWsAux_idem :
    ∀ (l : List Char) (b : Bool),
      collapseWsAux b (collapseWsAux b l) = collapseWsAux b l := by
  intro l
  induction l with
  | nil => intro b; rfl
  | cons a as ih =>
    intro b
    by_cases hw : isWs a
    · cases b with
      | true =>
        rw [collapseWsAux_cons_of_ws_true hw, ih true]
      | false =>
        rw [collapseWsAux_cons_of_ws_false hw,
          collapseWsAux_cons_of_ws_false (by decide : isWs ' ' = true),
          ih true]
    · have hw' : isWs a = false := by simpa using hw
      rw [collapseWsAux_cons_of_not_ws b hw',
        collapseWsAux_cons_of_not_ws b hw', ih false]

theorem getLast?_collapseWsAux :
    ∀ {l : List Char} {c : Char} (b : Bool),
      l.getLast? = some c → isWs c = false →
      (collapseWsAux b l).getLast? = some c := by
  intro l
  induction l with
  | nil => intro c b h _; simp at h
  | cons a as ih =>
    intro c b h hc
    cases as with
    | nil =>
      simp at h
      subst h
      simp [collapseWsAux, hc]
    | cons x xs =>
      rw [List.getLast?_cons_cons] at h
      have ihx := fun b => ih (c := c) b h hc
      have step : ∀ (d : Char) (b' : Bool),
          (d :: collapseWsAux b' (x :: xs)).getLast? = some c := by
        intro d b'
        have hne : (collapseWsAux b' (x :: xs)) ≠ [] := by
          intro hcon
          have := ihx b'
          rw [hcon] at this
          simp at this
        obtain ⟨y, ys, hys⟩ := List.exists_cons_of_ne_nil hne
        rw [hys, List.getLast?_cons_cons, ← hys]
        exact ihx b'
      by_cases hw : isWs a
      · cases b with
        | true =>
          rw [collapseWsAux_cons_of_ws_true hw]
          exact ihx true
        | false =>
          rw [collapseWsAux_cons_of_ws_false hw]
          exact step ' ' true
      · have hw' : isWs a = false := by simpa using hw
        rw [collapseWsAux_cons_of_not_ws b hw']
        exact step a false

theorem lineNorm_idem (l : List Char) : lineNorm (lineNorm l) = lineNorm l := by
  have htrim : trim (lineNorm l) = lineNorm l := by
    apply trim_eq_self
    · intro c h
      unfold lineNorm collapseWs at h
      cases hl : trim l with
      | nil => rw [hl] at h; simp [collapseWsAux] at h
      | cons a as =>
        have ha : isWs a = false := trim_head_not_ws (by rw [hl]; rfl)
        rw [hl, collapseWsAux_cons_of_not_ws false ha] at h
        simp at h
        subst h
        exact ha
    · intro c h
      unfold lineNorm collapseWs at h
      cases hgl : (trim l).getLast? with
      | none =>
        have : trim l = [] := by
          cases htl : trim l with
          | nil => rfl
          | cons x xs => rw [htl] at hgl; simp at hgl
        rw [this] at h
        simp [collapseWsAux] at h
      | some d =>
        have hd : isWs d = false := trim_getLast_not_ws hgl
        have := getLast?_collapseWsAux false hgl hd
        rw [this] at h
        simp at h
        subst h
        exact hd
  unfold lineNorm
  rw [show trim (collapseWs (trim l)) = trim (lineNorm l) from rfl, htrim]
  unfold lineNorm collapseWs
  exact collapseWsAux_idem (trim l) false

theorem normalizeTextWorker_idem (l : List Char) :
    normalizeTextWorker (normalizeTextWorker l) = normalizeTextWorker l :=
  lineNorm_idem l

/-! ## Lemmas: line splitting and joining -/

theorem segs_nil : segs [] = [[]] := rfl

theorem segsCore_cons_nl (cs : List Char) :
    segsCore ('\n' :: cs) = ([], (segsCore cs).1 :: (segsCore cs).2) := by
  simp [segsCore]

theorem segsCore_cons_of_ne {c : Char} (cs : List Char) (h : c ≠ '\n') :
    segsCore (c :: cs) = (c :: (segsCore cs).1, (segsCore cs).2) := by
  simp [segsCore, h]

theorem segs_cons_nl (cs : List Char) : segs ('\n' :: cs) = [] :: segs cs := by
  simp [segs, segsCore_cons_nl]

theorem mem_segs_noNl :
    ∀ {l : List Char} {s : List Char}, s ∈ segs l → '\n' ∉ s := by
  intro l
  induction l with
  | nil => intro s hs; simp [segs, segsCore] at hs; simp [hs]
  | cons c cs ih =>
    intro s hs
    by_cases hc : c = '\n'
    · subst hc
      rw [segs_cons_nl] at hs
      rcases List.mem_cons.mp hs with h | h
      · simp [h]
      · exact ih h
    · rw [segs, segsCore_cons_of_ne cs hc] at hs
      rcases List.mem_cons.mp hs with h | h
      · subst h
        intro hmem
        rcases List.mem_cons.mp hmem with h' | h'
        · exact hc h'.symm
        · exact ih (by simp [segs]) h'
      · exact ih (List.mem_cons_of_mem _ h)

theorem joinNl_cons_cons (m : List Char) (m' : List Char)
    (ms : List (List Char)) :
    joinNl (m :: m' :: ms) = m ++ '\n' :: joinNl (m' :: ms) := rfl

theorem joinNl_segs : ∀ (l : List Char), joinNl (segs l) = l := by
  intro l
  induction l with
  | nil => rfl
  | cons c cs ih =>
    by_cases hc : c = '\n'
    · subst hc
      rw [segs_cons_nl]
      have : segs cs = (segsCore cs).1 :: (segsCore cs).2 := rfl
      rw [this] at ih ⊢
      rw [joinNl_cons_cons, List.nil_append, ih]
    · rw [segs, segsCore_cons_of_ne cs hc]
      cases ht : (segsCore cs).2 with
      | nil =>
        have : segs cs = [(segsCore cs).1] := by rw [segs, ht]
        rw [this] at ih
        simp [joinNl] at ih ⊢
        rw [ih]
      | cons t ts =>
        have : segs cs = (segsCore cs).1 :: t :: ts := by rw [segs, ht]
        rw [this] at ih
        rw [joinNl_cons_cons] at ih ⊢
        rw [List.cons_append, ih]

theorem segs_noNl_singleton :
    ∀ {m : List Char}, '\n' ∉ m → segs m = [m] := by
  intro m
  induction m with
  | nil => intro _; rfl
  | cons c cs ih =>
    intro h
    have hc : c ≠ '\n' := fun hcon => h (hcon ▸ List.mem_cons_self c cs)
    have hcs : '\n' ∉ cs := fun hcon => h (List.mem_cons_of_mem _ hcon)
    rw [segs, segsCore_cons_of_ne cs hc]
    have := ih hcs
    rw [segs] at this
    simp at this
    simp [this.1, this.2]

theorem segs_append_nl {m : List Char} (r : List Char) (h : '\n' ∉ m) :
    segs (m ++ '\n' :: r) = m :: segs r := by
  induction m with
  | nil => simp [segs_cons_nl]
  | cons c cs ih =>
    have hc : c ≠ '\n' := fun hcon => h (hcon ▸ List.mem_cons_self c cs)
    have hcs : '\n' ∉ cs := fun hcon => h (List.mem_cons_of_mem _ hcon)
    have ihcs := ih hcs
    rw [List.cons_append, segs, segsCore_cons_of_ne _ hc]
    rw [segs] at ihcs
    have h1 : (segsCore (cs ++ '\n' :: r)).1 = cs := by
      have := congrArg List.head? ihcs
      simpa using this
    have h2 : (segsCore (cs ++ '\n' :: r)).2 = segs r := by
      have := congrArg List.tail ihcs
      simpa using this
    rw [h1, h2]

theorem segs_joinNl :
    ∀ {M : List (List Char)}, M ≠ [] → (∀ m ∈ M, '\n' ∉ m) →
      segs (joinNl M) = M := by
  intro M
  induction M with
  | nil => intro h _; exact absurd rfl h
  | cons m ms ih =>
    intro _ hnl
    cases ms with
    | nil =>
      show segs (joinNl [m]) = [m]
      rw [show joinNl [m] = m from rfl]
      exact segs_noNl_singleton (hnl m (List.mem_cons_self _ _))
    | cons m' ms' =>
      rw [joinNl_cons_cons,
        segs_append_nl _ (hnl m (List.mem_cons_self _ _)),
        ih (by simp) (fun x hx => hnl x (List.mem_cons_of_mem _ hx))]

/-! ## Lemmas: blank-line collapsing -/

theorem collapseNlAux_nil (k : Nat) :
    collapseNlAux k [] =
      if k ≥ 3 then ['\n', '\n'] else List.replicate k '\n' := rfl

theorem collapseNlAux_cons_nl (k : Nat) (cs : List Char) :
    collapseNlAux k ('\n' :: cs) = collapseNlAux (k + 1) cs := by
  simp [collapseNlAux]

theorem collapseNlAux_cons_ne {c : Char} (k : Nat) (cs : List Char)
    (h : c ≠ '\n') :
    collapseNlAux k (c :: cs) =
      (if k ≥ 3 then ['\n', '\n'] else List.replicate k '\n')
        ++ c :: collapseNlAux 0 cs := by
  simp [collapseNlAux, h]

theorem collapseNlAux_zero_cons_ne {c : Char} (cs : List Char)
    (h : c ≠ '\n') :
    collapseNlAux 0 (c :: cs) = c :: collapseNlAux 0 cs := by
  rw [collapseNlAux_cons_ne 0 cs h]
  simp

theorem segs_replicate_nl_append :
    ∀ (j : Nat) (r : List Char),
      segs (List.replicate j '\n' ++ r) = List.replicate j [] ++ segs r := by
  intro j
  induction j with
  | zero => intro r; simp
  | succ j ih =>
    intro r
    rw [List.replicate_succ, List.cons_append, segs_cons_nl, ih,
      List.replicate_succ, List.cons_append]

theorem collapseNlAux_head :
    ∀ (l : List Char) (k : Nat), 1 ≤ k →
      ∃ r, collapseNlAux k l = '\n' :: r := by
  intro l
  induction l with
  | nil =>
    intro k hk
    rw [collapseNlAux_nil]
    by_cases h3 : k ≥ 3
    · exact ⟨['\n'], by simp [h3]⟩
    · obtain ⟨k', rfl⟩ := Nat.exists_eq_add_of_le hk
      refine ⟨List.replicate k' '\n', ?_⟩
      rw [if_neg h3, Nat.add_comm 1 k', List.replicate_succ]
  | cons c cs ih =>
    intro k hk
    by_cases hc : c = '\n'
    · subst hc
      rw [collapseNlAux_cons_nl]
      exact ih (k + 1) (by omega)
    · rw [collapseNlAux_cons_ne k cs hc]
      by_cases h3 : k ≥ 3
      · exact ⟨'\n' :: (c :: collapseNlAux 0 cs), by simp [h3]⟩
      · obtain ⟨k', rfl⟩ := Nat.exists_eq_add_of_le hk
        refine ⟨List.replicate k' '\n' ++ c :: collapseNlAux 0 cs, ?_⟩
        rw [if_neg h3, Nat.add_comm 1 k', List.replicate_succ,
          List.cons_append]

theorem segsCore_fst_collapseNlAux :
    ∀ (l : List Char), (segsCore (collapseNlAux 0 l)).1 = (segsCore l).1 := by
  intro l
  induction l with
  | nil => rfl
  | cons c cs ih =>
    by_cases hc : c = '\n'
    · subst hc
      rw [collapseNlAux_cons_nl]
      obtain ⟨r, hr⟩ := collapseNlAux_head cs 1 le_rfl
      rw [hr, segsCore_cons_nl, segsCore_cons_nl]
    · rw [collapseNlAux_zero_cons_ne cs hc]
      rw [segsCore_cons_of_ne _ hc, segsCore_cons_of_ne _ hc, ih]

theorem segs_collapseNlAux_sublist :
    ∀ (l : List Char) (k : Nat),
      List.Sublist (segs (collapseNlAux k l))
        (List.replicate k [] ++ segs l) := by
  intro l
  induction l with
  | nil =>
    intro k
    rw [collapseNlAux_nil]
    by_cases h3 : k ≥ 3
    · rw [if_pos h3]
      have : segs ['\n', '\n'] =
          List.replicate 2 [] ++ segs ([] : List Char) := by decide
      rw [this, segs_nil]
      exact List.Sublist.append
        ((List.replicate_sublist_replicate ([] : List Char)).mpr (by omega))
        (List.Sublist.refl _)
    · rw [if_neg h3]
      rw [show (List.replicate k '\n' : List Char) =
        List.replicate k '\n' ++ [] by simp]
      rw [segs_replicate_nl_append, segs_nil]
  | cons c cs ih =>
    intro k
    by_cases hc : c = '\n'
    · subst hc
      rw [collapseNlAux_cons_nl, segs_cons_nl]
      have h1 : List.replicate k ([] : List Char) ++ [] :: segs cs =
          List.replicate (k + 1) ([] : List Char) ++ segs cs := by
        rw [List.replicate_succ']
        simp
      rw [h1]
      exact ih (k + 1)

    · rw [collapseNlAux_cons_ne k cs hc]
      have hsplit : segs ((if k ≥ 3 then ['\n', '\n']
            else List.replicate k '\n') ++ c :: collapseNlAux 0 cs) =
          (if k ≥ 3 then List.replicate 2 ([] : List Char)
            else List.replicate k ([] : List Char))
            ++ segs (c :: collapseNlAux 0 cs) := by

        by_cases h3 : k ≥ 3
        · rw [if_pos h3, if_pos h3,
            show (['\n', '\n'] : List Char) = List.replicate 2 '\n' by rfl,
            segs_replicate_nl_append]
        · rw [if_neg h3, if_neg h3, segs_replicate_nl_append]
      rw [hsplit]
      have hhead := segsCore_fst_collapseNlAux cs
      have htail : List.Sublist (segsCore (collapseNlAux 0 cs)).2
          (segsCore cs).2 := by
        have hsub := ih 0
        simp only [List.replicate_zero, List.nil_append] at hsub
        rw [show segs (collapseNlAux 0 cs) =
          (segsCore (collapseNlAux 0 cs)).1 :: (segsCore (collapseNlAux 0 cs)).2
          from rfl, show segs cs = (segsCore cs).1 :: (segsCore cs).2 from rfl,
          hhead] at hsub
        exact List.Sublist.of_cons_cons hsub
      rw [segs, segsCore_cons_of_ne _ hc, segs, segsCore_cons_of_ne _ hc,
        hhead]
      refine List.Sublist.append ?_ (List.cons_sublist_cons.mpr htail)
      by_cases h3 : k ≥ 3
      · rw [if_pos h3]
        exact (List.replicate_sublist_replicate ([] : List Char)).mpr (by omega)
      · rw [if_neg h3]

theorem mem_segs_collapseNl {l : List Char} {s : List Char}
    (h : s ∈ segs (collapseNl l)) : s ∈ segs l := by
  have hsub := segs_collapseNlAux_sublist l 0
  simp only [List.replicate_zero, List.nil_append] at hsub
  exact hsub.subset h

theorem hasTripleNl_cons_cons_cons (a b c : Char) (r : List Char) :
    hasTripleNl (a :: b :: c :: r) =
      ((a = '\n' && b = '\n' && c = '\n') || hasTripleNl (b :: c :: r)) := rfl

theorem hasTripleNl_cons_of_ne {a : Char} (l : List Char) (h : a ≠ '\n') :
    hasTripleNl (a :: l) = hasTripleNl l := by
  match l with
  | [] => rfl
  | [b] => rfl
  | b :: c :: r =>
    rw [hasTripleNl_cons_cons_cons]
    simp [h]

theorem hasTripleNl_cons_mid_ne (x : Char) {c : Char} (ys : List Char)
    (h : c ≠ '\n') :
    hasTripleNl (x :: c :: ys) = hasTripleNl ys := by
  match ys with
  | [] => rfl
  | y :: ys' =>
    rw [hasTripleNl_cons_cons_cons]
    simp [h]
    exact hasTripleNl_cons_of_ne _ h

theorem hasTripleNl_tail {a : Char} {l : List Char}
    (h : hasTripleNl (a :: l) = false) : hasTripleNl l = false := by
  match l with
  | [] => rfl
  | [b] => rfl
  | b :: c :: r =>
    rw [hasTripleNl_cons_cons_cons] at h
    simp at h
    exact h.2

theorem hasTripleNl_collapseNlAux :
    ∀ (l : List Char) (k : Nat),
      hasTripleNl (collapseNlAux k l) = false := by
  intro l
  induction l with
  | nil =>
    intro k
    rw [collapseNlAux_nil]
    by_cases h3 : k ≥ 3
    · rw [if_pos h3]; rfl
    · rw [if_neg h3]
      interval_cases k <;> rfl
  | cons c cs ih =>
    intro k
    by_cases hc : c = '\n'
    · subst hc
      rw [collapseNlAux_cons_nl]
      exact ih (k + 1)
    · rw [collapseNlAux_cons_ne k cs hc]
      have ih0 := ih 0
      have pad2 : hasTripleNl ('\n' :: '\n' :: c :: collapseNlAux 0 cs)
          = false := by
        rw [hasTripleNl_cons_cons_cons]
        simp [hc]
        rw [hasTripleNl_cons_mid_ne _ _ hc]
        exact ih0
      by_cases h3 : k ≥ 3
      · rw [if_pos h3]
        exact pad2
      · rw [if_neg h3]
        interval_cases k
        · simp only [List.replicate_zero, List.nil_append]
          rw [hasTripleNl_cons_of_ne _ hc]
          exact ih0
        · simp only [List.replicate_succ, List.replicate_zero,
            List.cons_append, List.nil_append]
          rw [hasTripleNl_cons_mid_ne _ _ hc]
          exact ih0
        · simp only [List.replicate_succ, List.replicate_zero,
            List.cons_append, List.nil_append]
          exact pad2

theorem collapseNlAux_eq_self_of_bound :
    ∀ (n : Nat) (l : List Char), l.length ≤ n → hasTripleNl l = false →
      collapseNlAux 0 l = l := by
  intro n
  induction n with
  | zero =>
    intro l hl _
    cases l with
    | nil => rfl
    | cons c cs => simp at hl
  | succ n ih =>
    intro l hl h
    cases l with
    | nil => rfl
    | cons c cs =>
      by_cases hc : c = '\n'
      · subst hc
        rw [collapseNlAux_cons_nl]
        cases cs with
        | nil => rfl
        | cons d ds =>
          by_cases hd : d = '\n'
          · subst hd
            rw [collapseNlAux_cons_nl]
            cases ds with
            | nil => rfl
            | cons e es =>
              by_cases he : e = '\n'
              · subst he
                rw [hasTripleNl_cons_cons_cons] at h
                simp at h
              · rw [collapseNlAux_cons_ne 2 es he]
                have hes : hasTripleNl es = false :=
                  hasTripleNl_tail (hasTripleNl_tail (hasTripleNl_tail h))
                rw [ih es (by simp at hl ⊢; omega) hes]
                rfl
          · rw [collapseNlAux_cons_ne 1 ds hd]
            have hds : hasTripleNl ds = false :=
              hasTripleNl_tail (hasTripleNl_tail h)
            rw [ih ds (by simp at hl ⊢; omega) hds]
            rfl
      · rw [collapseNlAux_zero_cons_ne cs hc]
        have hcs : hasTripleNl cs = false := hasTripleNl_tail h
        rw [ih cs (by simp at hl ⊢; omega) hcs]

theorem collapseNl_eq_self {l : List Char} (h : hasTripleNl l = false) :
    collapseNl l = l :=
  collapseNlAux_eq_self_of_bound l.length l le_rfl h

/-! ## Lemmas: the two text normalizers -/

theorem ws_mem_collapseWsAux :
    ∀ {l : List Char} {x : Char} (b : Bool),
      x ∈ collapseWsAux b l → isWs x = true → x = ' ' := by
  intro l
  induction l with
  | nil => intro x b hx _; simp [collapseWsAux] at hx
  | cons a as ih =>
    intro x b hx hws
    by_cases hw : isWs a
    · cases b with
      | true =>
        rw [collapseWsAux_cons_of_ws_true hw] at hx
        exact ih true hx hws
      | false =>
        rw [collapseWsAux_cons_of_ws_false hw] at hx
        rcases List.mem_cons.mp hx with h | h
        · exact h
        · exact ih true h hws
    · have hw' : isWs a = false := by simpa using hw
      rw [collapseWsAux_cons_of_not_ws b hw'] at hx
      rcases List.mem_cons.mp hx with h | h
      · subst h
        rw [hws] at hw'
        cases hw'
      · exact ih false h hws

theorem noNl_lineNorm (l : List Char) : '\n' ∉ lineNorm l := by
  intro hmem
  have := ws_mem_collapseWsAux false hmem (by decide)
  cases this

theorem segs_joinNorm (l : List Char) :
    segs (joinNorm l) = (segs l).map lineNorm := by
  unfold joinNorm
  apply segs_joinNl
  · simp [segs]
  · intro m hm
    obtain ⟨u, _, rfl⟩ := List.mem_map.mp hm
    exact noNl_lineNorm u

theorem countLines_joinNorm (l : List Char) :
    countLines (joinNorm l) = countLines l := by
  unfold countLines
  rw [segs_joinNorm, List.length_map]

theorem normalizeText_eq_joinNorm {l : List Char}
    (h : hasTripleNl (joinNorm l) = false) :
    normalizeText l = joinNorm l := by
  unfold normalizeText
  exact collapseNl_eq_self h

theorem countLines_normalizeTextWorker (l : List Char) :
    countLines (normalizeTextWorker l) = 1 := by
  have hnl : '\n' ∉ normalizeTextWorker l := by
    intro hmem
    have := ws_mem_collapseWsAux false hmem (by decide)
    cases this
  unfold countLines
  rw [segs_noNl_singleton hnl]
  rfl

theorem map_lineNorm_fix {M : List (List Char)}
    (h : ∀ s ∈ M, lineNorm s = s) : M.map lineNorm = M := by
  induction M with
  | nil => rfl
  | cons m ms ih =>
    rw [List.map_cons, h m (List.mem_cons_self _ _),
      ih (fun s hs => h s (List.mem_cons_of_mem _ hs))]

theorem normalizeText_fixpoint {y : List Char}
    (hfix : ∀ s ∈ segs y, lineNorm s = s)
    (htri : hasTripleNl y = false) : normalizeText y = y := by
  unfold normalizeText joinNorm
  rw [map_lineNorm_fix hfix, joinNl_segs, collapseNl_eq_self htri]

theorem segs_normalizeText_fixed (l : List Char) :
    ∀ s ∈ segs (normalizeText l), lineNorm s = s := by
  intro s hs
  have h1 : s ∈ segs (joinNorm l) := mem_segs_collapseNl hs
  rw [segs_joinNorm] at h1
  obtain ⟨u, _, rfl⟩ := List.mem_map.mp h1
  exact lineNorm_idem u

theorem normalizeText_idem (l : List Char) :
    normalizeText (normalizeText l) = normalizeText l :=
  normalizeText_fixpoint (segs_normalizeText_fixed l)
    (hasTripleNl_collapseNlAux (joinNorm l) 0)

/-! ## Lemmas: newline counting under blank-line collapsing -/

theorem countLines_eq_count :
    ∀ l : List Char, countLines l = l.count '\n' + 1 := by
  intro l
  induction l with
  | nil => rfl
  | cons c cs ih =>
    by_cases hc : c = '\n'
    · subst hc
      rw [countLines, segs_cons_nl, List.length_cons]
      rw [countLines] at ih
      rw [ih, List.count_cons]
      simp
    · rw [countLines, segs, segsCore_cons_of_ne _ hc, List.length_cons]
      rw [countLines, segs, List.length_cons] at ih
      rw [ih, List.count_cons]
      simp [hc]

theorem count_nl_replicate (k : Nat) :
    (List.replicate k '\n').count '\n' = k := by
  simp

theorem count_nl_collapseNlAux_le :
    ∀ (l : List Char) (k : Nat),
      (collapseNlAux k l).count '\n' ≤ k + l.count '\n' := by
  intro l
  induction l with
  | nil =>
    intro k
    rw [collapseNlAux_nil]
    by_cases h3 : k ≥ 3
    · rw [if_pos h3]
      simp
      omega
    · rw [if_neg h3, count_nl_replicate]
      simp
  | cons c cs ih =>
    intro k
    by_cases hc : c = '\n'
    · subst hc
      rw [collapseNlAux_cons_nl, List.count_cons]
      have := ih (k + 1)
      simp
      omega
    · rw [collapseNlAux_cons_ne _ _ hc]
      have h0 := ih 0
      have hemit : (if k ≥ 3 then ['\n', '\n']
          else List.replicate k '\n').count '\n' ≤ k := by
        by_cases h3 : k ≥ 3
        · rw [if_pos h3]
          simp
          omega
        · rw [if_neg h3, count_nl_replicate]
      simp only [List.count_append, List.count_cons] at hemit ⊢
      simp [hc]
      simp at h0 hemit
      omega

theorem count_nl_collapseNlAux_le_two :
    ∀ (l : List Char) (k : Nat), 3 ≤ k →
      (collapseNlAux k l).count '\n' ≤ 2 + l.count '\n' := by
  intro l
  induction l with
  | nil =>
    intro k h3
    rw [collapseNlAux_nil, if_pos (by omega : k ≥ 3)]
    simp
  | cons c cs ih =>
    intro k h3
    by_cases hc : c = '\n'
    · subst hc
      rw [collapseNlAux_cons_nl, List.count_cons]
      have := ih (k + 1) (by omega)
      simp
      omega
    · rw [collapseNlAux_cons_ne _ _ hc, if_pos (by omega : k ≥ 3)]
      have h0 := count_nl_collapseNlAux_le cs 0
      simp only [List.count_append, List.count_cons]
      simp [hc]
      simp at h0
      omega

theorem count_nl_collapseNl_lt_of_bound :
    ∀ (n : Nat) (l : List Char), l.length ≤ n → hasTripleNl l = true →
      (collapseNlAux 0 l).count '\n' < l.count '\n' := by
  intro n
  induction n with
  | zero =>
    intro l hl htri
    cases l with
    | nil => cases htri
    | cons c cs => simp at hl
  | succ n ih =>
    intro l hl htri
    cases l with
    | nil => cases htri
    | cons c cs =>
      by_cases hc : c = '\n'
      · subst hc
        rw [collapseNlAux_cons_nl]
        cases cs with
        | nil => cases htri
        | cons d ds =>
          by_cases hd : d = '\n'
          · subst hd
            rw [collapseNlAux_cons_nl]
            cases ds with
            | nil => cases htri
            | cons e es =>
              by_cases he : e = '\n'
              · subst he
                rw [collapseNlAux_cons_nl]
                have hle := count_nl_collapseNlAux_le_two es 3 le_rfl
                simp only [List.count_cons]
                simp at hle ⊢
                omega
              · rw [collapseNlAux_cons_ne 2 es he,
                  if_neg (by omega : ¬ (2 : Nat) ≥ 3)]
                have htri' : hasTripleNl es = true := by
                  rw [hasTripleNl_cons_cons_cons] at htri
                  simp [he] at htri
                  rw [hasTripleNl_cons_mid_ne _ _ he] at htri
                  exact htri
                have := ih es
                  (by simp only [List.length_cons] at hl; omega) htri'
                simp only [List.count_append, List.count_cons]
                simp [he]
                omega
          · rw [collapseNlAux_cons_ne 1 ds hd,
              if_neg (by omega : ¬ (1 : Nat) ≥ 3)]
            have htri' : hasTripleNl ds = true := by
              rw [hasTripleNl_cons_mid_ne _ _ hd] at htri
              exact htri
            have := ih ds
              (by simp only [List.length_cons] at hl; omega) htri'
            simp only [List.count_append, List.count_cons]
            simp [hd]
            omega
      · rw [collapseNlAux_zero_cons_ne cs hc]
        have htri' : hasTripleNl cs = true := by
          rw [hasTripleNl_cons_of_ne _ hc] at htri
          exact htri
        have := ih cs
          (by simp only [List.length_cons] at hl; omega) htri'
        simp only [List.count_cons]
        simp [hc]
        omega

theorem countLines_normalizeText_lt {l : List Char}
    (h : hasTripleNl (joinNorm l) = true) :
    countLines (normalizeText l) < countLines l := by
  have hstrict := count_nl_collapseNl_lt_of_bound (joinNorm l).length
    (joinNorm l) le_rfl h
  have h1 : countLines (normalizeText l) < countLines (joinNorm l) := by
    rw [countLines_eq_count, countLines_eq_count]
    rw [show normalizeText l = collapseNlAux 0 (joinNorm l) from rfl]
    omega
  rw [countLines_joinNorm] at h1
  exact h1

/-! ## Claim C1: line-count preservation of normalization -/

/-- C1, counterexample.  The claim "normalization never changes the
number of newline-delimited lines" is false for the code: on the input
`"a\n\n\nb"` (4 lines) the server's `normalizeText` collapses the run
of three newlines to two and returns `"a\n\nb"` (3 lines). -/
theorem normalizeText_line_count_counterexample :
    countLines (String.toList "a\n\n\nb") = 4 ∧
    countLines (normalizeText (String.toList "a\n\n\nb")) = 3 ∧
    ¬ ∀ x : List Char, countLines (normalizeText x) = countLines x := by
  refine ⟨by decide, by decide, fun h => ?_⟩
  exact absurd (h (String.toList "a\n\n\nb")) (by decide)

/-- C1, amended.  The server's `normalizeText` preserves the
newline-delimited line count *exactly when* the per-line-normalized
text contains no run of three or more consecutive newlines, and when
such a run exists the line count strictly decreases (each maximal run
collapses to two newlines); the worker's `normalizeText` collapses
every whitespace run — newlines included — to a single space, so its
output always has exactly one line. -/
theorem normalizeText_line_count_amended :
    (∀ l : List Char,
      countLines (normalizeText l) = countLines l ↔
        hasTripleNl (joinNorm l) = false) ∧
    (∀ l : List Char, hasTripleNl (joinNorm l) = true →
      countLines (normalizeText l) < countLines l) ∧
    (∀ l : List Char, countLines (normalizeTextWorker l) = 1) := by
  refine ⟨?_, fun l h => countLines_normalizeText_lt h,
    countLines_normalizeTextWorker⟩
  intro l
  constructor
  · intro heq
    cases htri : hasTripleNl (joinNorm l) with
    | false => rfl
    | true =>
      have := countLines_normalizeText_lt htri
      omega
  · intro h
    rw [normalizeText_eq_joinNorm h, countLines_joinNorm]

/-- C1, witness for the amended theorem, exercising both directions:
the two-line input `"a \n b"` has no triple-newline run and its line
count is preserved; the input `"a\n\n\nb"` has one and its line count
strictly drops. -/
theorem normalizeText_line_count_amended_witness :
    (hasTripleNl (joinNorm (String.toList "a \n b")) = false ∧
      countLines (normalizeText (String.toList "a \n b")) =
        countLines (String.toList "a \n b")) ∧
    (hasTripleNl (joinNorm (String.toList "a\n\n\nb")) = true ∧
      countLines (normalizeText (String.toList "a\n\n\nb")) <
        countLines (String.toList "a\n\n\nb")) :=
  ⟨⟨by decide, (normalizeText_line_count_amended.1 _).mpr (by decide)⟩,
    ⟨by decide, normalizeText_line_count_amended.2.1 _ (by decide)⟩⟩

/-! ## Claim C10: idempotence of normalization -/

/-- C10.  Both text normalizers are idempotent: re-normalizing
already-normalized text is the identity, for the server's per-line
normalizer and for the worker's whole-text normalizer; hence every
cache-key computation over normalized text is stable. -/
theorem normalizeText_idempotent_both :
    ∀ l : List Char,
      normalizeText (normalizeText l) = normalizeText l ∧
      normalizeTextWorker (normalizeTextWorker l) = normalizeTextWorker l :=
  fun l => ⟨normalizeText_idem l, normalizeTextWorker_idem l⟩

/-! ## Claim C5: short-circuit when source equals target -/

/-- C5.  In both implementations, a validated request whose resolved
source language (given, or detected when `sourceLang == "auto"`) equals
the target language is answered with the normalized input text as the
translation and `cached = false`; the translation cache is neither read
nor written, and the upstream translation capability is not invoked. -/
theorem short_circuit_identity :
    (∀ (body : RawBody) (t tg : List Char) (cache : CacheMap) (now : Int)
        (detect : Except Unit (List Char))
        (translate : Except (List Char) (List Char)),
      body.text = .str t → (trim t).isEmpty = false →
      body.targetLang = .str tg → tg.isEmpty = false →
      body.provider = .str geminiStr →
      (if body.source = autoStr then detectLanguageServer detect
        else body.source) = tg →
      handleTranslate body cache now detect translate =
        ⟨.ok (normalizeText t) false tg, cache,
          (if body.source = autoStr then 1 else 0), 0, 0⟩) ∧
    (∀ (rl : Option RLEntry) (body : RawBody) (t res : List Char)
        (cache : CacheMap) (now : Int) (apiKey : Option (List Char))
        (detect translate : Except (List Char) (List Char)),
      (checkRateLimit rl now).1.allowed = true →
      body.text = .str t → (trim t).isEmpty = false →
      body.targetLang.truthy = true →
      body.provider = .str geminiStr →
      ((body.source ≠ autoStr ∧ res = body.source) ∨
        (body.source = autoStr ∧ detectLanguageWorker detect = .ok res)) →
      body.targetLang = .str res →
      workerTranslate rl body cache now apiKey detect translate =
        ⟨.ok (normalizeTextWorker t) false res, cache,
          (checkRateLimit rl now).2,
          (if body.source = autoStr then 1 else 0), 0, 0⟩) := by
  constructor
  · intro body t tg cache now detect translate ht htv htg htgv hprov hres
    obtain ⟨bt, bs, btg, bp⟩ := body
    simp only at ht htg hprov
    subst ht htg hprov
    simp only [RawBody.source] at hres
    simp [handleTranslate, RawBody.source, htv, htgv, hres]
  · intro rl body t res cache now apiKey detect translate hallow ht htv
      htgt hprov hsrc htg
    obtain ⟨bt, bs, btg, bp⟩ := body
    simp only at ht htg hprov
    subst ht htg hprov
    simp only [RawBody.source] at hsrc ⊢
    rcases hsrc with ⟨hne, hres⟩ | ⟨hauto, hdet⟩
    · have hne' : res ≠ autoStr := by rw [hres]; exact hne
      simp [workerTranslate, workerRespond, RawBody.source, hallow, htv,
        htgt, hne', hres.symm]
    · simp [workerTranslate, workerRespond, RawBody.source, hallow, htv,
        htgt, hauto, hdet]

/-- C5, witness: the concrete scenario
`{text: "This text should be returned as-is", sourceLang: "en",
targetLang: "en", provider: "gemini"}` answered by both handlers with
the normalized text, `cached = false`, untouched cache and no upstream
call. -/
theorem short_circuit_identity_witness :
    handleTranslate
        ⟨.str (String.toList "This text should be returned as-is"),
          some (String.toList "en"), .str (String.toList "en"),
          .str geminiStr⟩
        [] 0 (.error ()) (.error []) =
      ⟨.ok (normalizeText (String.toList "This text should be returned as-is"))
        false (String.toList "en"), [], 0, 0, 0⟩ ∧
    workerTranslate none
        ⟨.str (String.toList "This text should be returned as-is"),
          some (String.toList "en"), .str (String.toList "en"),
          .str geminiStr⟩
        [] 0 none (.error []) (.error []) =
      ⟨.ok (normalizeTextWorker
          (String.toList "This text should be returned as-is"))
        false (String.toList "en"), [], some ⟨1, 0⟩, 0, 0, 0⟩ := by
  constructor
  · exact short_circuit_identity.1 _ _ _ _ _ _ _ rfl (by decide) rfl
      (by decide) rfl (by decide)
  · exact short_circuit_identity.2 _ _ _ _ _ _ _ _ _ (by decide) rfl
      (by decide) (by decide) rfl (Or.inl ⟨by decide, by decide⟩) (by decide)

/-! ## Claim C8: TTL semantics of the cache read -/

/-- C8.  The server's cache read misses exactly when the key is absent
or the stored entry's age satisfies `now - storedAt >= TTL`, and hits
exactly on a present entry strictly younger than the TTL, whose default
value is 72 hours. -/
theorem cacheGet_ttl_spec :
    (∀ (m : CacheMap) (k : CacheKey) (now : Int),
      cacheGet m k now = none ↔
        lookupCache m k = none ∨
          ∃ e, lookupCache m k = some e ∧
            now - e.timestamp ≥ CACHE_TTL_MS) ∧
    (∀ (m : CacheMap) (k : CacheKey) (now : Int) (e : CacheEntry),
      cacheGet m k now = some e ↔
        lookupCache m k = some e ∧ now - e.timestamp < CACHE_TTL_MS) ∧
    CACHE_TTL_MS = 72 * 60 * 60 * 1000 := by
  refine ⟨?_, ?_, rfl⟩
  · intro m k now
    unfold cacheGet
    cases h : lookupCache m k with
    | none => simp
    | some e =>
      by_cases hage : now - e.timestamp < CACHE_TTL_MS
      · simp only [if_pos hage]
        constructor
        · intro hcon
          cases hcon
        · intro hor
          rcases hor with hno | ⟨e', he', hage'⟩
          · cases hno
          · have : e = e' := by injection he'
            subst this
            omega
      · simp only [if_neg hage]
        constructor
        · intro _
          exact Or.inr ⟨e, rfl, by omega⟩
        · intro _
          trivial
  · intro m k now e
    unfold cacheGet
    cases h : lookupCache m k with
    | none =>
      constructor
      · intro hcon
        cases hcon
      · intro hcon
        cases hcon.1
    | some e' =>
      by_cases hage : now - e'.timestamp < CACHE_TTL_MS
      · simp only [if_pos hage]
        constructor
        · intro he
          have : e' = e := by injection he
          subst this
          exact ⟨rfl, hage⟩
        · intro hand
          have : e' = e := by injection hand.1
          subst this
          rfl
      · simp only [if_neg hage]
        constructor
        · intro hcon
          cases hcon
        · intro hand
          have : e' = e := by injection hand.1
          subst this
          exact absurd hand.2 hage

/-! ## Claim C6: validation order and first-failure-wins -/

/-- C6, counterexample.  The claim that validation requires `targetLang`
to be a non-empty string fails in the worker: its check is only
`!targetLang`, so a *non-string truthy* value (e.g. the number `5`,
modelled by `JVal.otherTruthy`) passes validation and the request is
answered 200 instead of 400. -/
theorem validation_targetLang_counterexample :
    (workerTranslate none
        ⟨.str (String.toList "hi"), some enStr, .otherTruthy,
          .str geminiStr⟩
        [] 0 (some (String.toList "k")) (.error [])
        (.ok (String.toList "T"))).resp =
      .ok (String.toList "T") false enStr ∧
    (workerTranslate none
        ⟨.str (String.toList "hi"), some enStr, .otherTruthy,
          .str geminiStr⟩
        [] 0 (some (String.toList "k")) (.error [])
        (.ok (String.toList "T"))).resp.status ≠ 400 := by
  constructor
  · decide
  · decide

/-- C6, amended.  Both handlers check `text` first, then `targetLang`,
then `provider`, and return the error of the first failing check only;
in particular a request missing both `text` and `targetLang` is
rejected citing the `text` failure.  The server requires `targetLang`
to be a non-empty string, while the worker only requires it to be
truthy (accepting non-string truthy values). -/
theorem validation_first_failure_amended :
    (∀ (body : RawBody) (cache : CacheMap) (now : Int)
        (detect : Except Unit (List Char))
        (translate : Except (List Char) (List Char)),
      (textOk body.text = false →
        (handleTranslate body cache now detect translate).resp =
          .err 400 .badText none) ∧
      (textOk body.text = true → targetOkServer body.targetLang = false →
        (handleTranslate body cache now detect translate).resp =
          .err 400 .badTarget none) ∧
      (textOk body.text = true → targetOkServer body.targetLang = true →
        providerOk body.provider = false →
        (handleTranslate body cache now detect translate).resp =
          .err 400 .badProvider none)) ∧
    (∀ (rl : Option RLEntry) (body : RawBody) (cache : CacheMap)
        (now : Int) (apiKey : Option (List Char))
        (detect translate : Except (List Char) (List Char)),
      (checkRateLimit rl now).1.allowed = true →
      (textOk body.text = false →
        (workerTranslate rl body cache now apiKey detect translate).resp =
          .err 400 .badText none) ∧
      (textOk body.text = true → body.targetLang.truthy = false →
        (workerTranslate rl body cache now apiKey detect translate).resp =
          .err 400 .badTarget none) ∧
      (textOk body.text = true → body.targetLang.truthy = true →
        providerOk body.provider = false →
        (workerTranslate rl body cache now apiKey detect translate).resp =
          .err 400 .badProvider none)) := by
  constructor
  · intro body cache now detect translate
    obtain ⟨bt, bs, btg, bp⟩ := body
    refine ⟨?_, ?_, ?_⟩
    · intro htext
      cases bt with
      | str t =>
        simp only [textOk] at htext
        simp at htext
        simp [handleTranslate, htext]
      | absent => simp [handleTranslate]
      | otherTruthy => simp [handleTranslate]
      | otherFalsy => simp [handleTranslate]
    · intro htext htgt
      cases bt with
      | str t =>
        simp only [textOk] at htext
        simp at htext
        cases btg with
        | str tg =>
          simp only [targetOkServer] at htgt
          simp at htgt
          simp [handleTranslate, htext, htgt]
        | absent => simp [handleTranslate, htext]
        | otherTruthy => simp [handleTranslate, htext]
        | otherFalsy => simp [handleTranslate, htext]
      | absent => simp [textOk] at htext
      | otherTruthy => simp [textOk] at htext
      | otherFalsy => simp [textOk] at htext
    · intro htext htgt hprov
      cases bt with
      | str t =>
        simp only [textOk] at htext
        simp at htext
        cases btg with
        | str tg =>
          simp only [targetOkServer] at htgt
          simp at htgt
          simp only [providerOk] at hprov
          simp at hprov
          simp [handleTranslate, htext, htgt, hprov]
        | absent => simp [targetOkServer] at htgt
        | otherTruthy => simp [targetOkServer] at htgt
        | otherFalsy => simp [targetOkServer] at htgt
      | absent => simp [textOk] at htext
      | otherTruthy => simp [textOk] at htext
      | otherFalsy => simp [textOk] at htext
  · intro rl body cache now apiKey detect translate hallow
    obtain ⟨bt, bs, btg, bp⟩ := body
    refine ⟨?_, ?_, ?_⟩
    · intro htext
      cases bt with
      | str t =>
        simp only [textOk] at htext
        simp at htext
        simp [workerTranslate, hallow, htext]
      | absent => simp [workerTranslate, hallow]
      | otherTruthy => simp [workerTranslate, hallow]
      | otherFalsy => simp [workerTranslate, hallow]
    · intro htext htgt
      cases bt with
      | str t =>
        simp only [textOk] at htext
        simp at htext
        simp only at htgt
        simp [workerTranslate, hallow, htext, htgt]
      | absent => simp [textOk] at htext
      | otherTruthy => simp [textOk] at htext
      | otherFalsy => simp [textOk] at htext
    · intro htext htgt hprov
      cases bt with
      | str t =>
        simp only [textOk] at htext
        simp at htext
        simp only at htgt
        simp only [providerOk] at hprov
        simp at hprov
        simp [workerTranslate, hallow, htext, htgt, hprov]
      | absent => simp [textOk] at htext
      | otherTruthy => simp [textOk] at htext
      | otherFalsy => simp [textOk] at htext

/-- C6, witness: a request missing both `text` and `targetLang` is
rejected citing the `text` failure by both handlers, and the remaining
ordered checks fire on concrete inputs. -/
theorem validation_first_failure_amended_witness :
    (handleTranslate ⟨.absent, none, .absent, .str geminiStr⟩ [] 0
        (.error ()) (.error [])).resp = .err 400 .badText none ∧
    (workerTranslate none ⟨.absent, none, .absent, .str geminiStr⟩ [] 0
        none (.error []) (.error [])).resp = .err 400 .badText none ∧
    (handleTranslate
        ⟨.str (String.toList "hi"), none, .absent, .str geminiStr⟩ [] 0
        (.error ()) (.error [])).resp = .err 400 .badTarget none ∧
    (handleTranslate
        ⟨.str (String.toList "hi"), none, .str (String.toList "vi"),
          .str (String.toList "openai")⟩ [] 0
        (.error ()) (.error [])).resp = .err 400 .badProvider none := by
  refine ⟨?_, ?_, ?_, ?_⟩
  · exact (validation_first_failure_amended.1 _ [] 0 (.error ())
      (.error [])).1 (by decide)
  · exact ((validation_first_failure_amended.2 none _ [] 0 none
      (.error []) (.error [])) (by decide)).1 (by decide)
  · exact (validation_first_failure_amended.1 _ [] 0 (.error ())
      (.error [])).2.1 (by decide) (by decide)
  · exact (validation_first_failure_amended.1 _ [] 0 (.error ())
      (.error [])).2.2 (by decide) (by decide) (by decide)

/-! ## Claim C7: validator / rate-limiter ordering -/

/-- C7, counterexample.  The claim "a request that fails validation
receives the validation outcome (400), never a rate-limit outcome
(429), regardless of the client's current rate-limit state" is false:
the worker checks the rate limit *before* parsing and validating the
body, so an invalid request (here: all fields absent) from a client
whose window is exhausted receives 429, not 400. -/
theorem validator_order_counterexample :
    textOk (JVal.absent) = false ∧
    (workerTranslate (some ⟨60, 50⟩) ⟨.absent, none, .absent, .absent⟩
        [] 100 none (.error []) (.error [])).resp =
      .err 429 .rateLimited (some 60) ∧
    (workerTranslate (some ⟨60, 50⟩) ⟨.absent, none, .absent, .absent⟩
        [] 100 none (.error []) (.error [])).resp.status ≠ 400 := by
  refine ⟨rfl, by decide, by decide⟩

/-- C7, amended.  The rate limiter runs *before* the validator: a
rate-limited client receives 429 for every body, valid or not.  Only
for a client the rate limiter admits does a validation failure produce
400, and it then does so before any detection, cache, or upstream
interaction (all invocation counters are zero and the cache is
unchanged). -/
theorem validator_order_amended :
    (∀ (rl : Option RLEntry) (body : RawBody) (cache : CacheMap)
        (now : Int) (apiKey : Option (List Char))
        (detect translate : Except (List Char) (List Char)),
      (checkRateLimit rl now).1.allowed = false →
      workerTranslate rl body cache now apiKey detect translate =
        ⟨.err 429 .rateLimited (checkRateLimit rl now).1.retryAfter,
          cache, (checkRateLimit rl now).2, 0, 0, 0⟩) ∧
    (∀ (rl : Option RLEntry) (body : RawBody) (cache : CacheMap)
        (now : Int) (apiKey : Option (List Char))
        (detect translate : Except (List Char) (List Char)),
      (checkRateLimit rl now).1.allowed = true →
      textOk body.text = false →
      workerTranslate rl body cache now apiKey detect translate =
        ⟨.err 400 .badText none, cache, (checkRateLimit rl now).2,
          0, 0, 0⟩) := by
  constructor
  · intro rl body cache now apiKey detect translate hdeny
    simp [workerTranslate, hdeny]
  · intro rl body cache now apiKey detect translate hallow htext
    obtain ⟨bt, bs, btg, bp⟩ := body
    cases bt with
    | str t =>
      simp only [textOk] at htext
      simp at htext
      simp [workerTranslate, hallow, htext]
    | absent => simp [workerTranslate, hallow]
    | otherTruthy => simp [workerTranslate, hallow]
    | otherFalsy => simp [workerTranslate, hallow]

/-- C7, witness for the amended theorem: a rate-limited client gets 429
even with an invalid body, and an admitted client with an invalid body
gets 400 with no capability calls. -/
theorem validator_order_amended_witness :
    (checkRateLimit (some ⟨60, 50⟩) 100).1.allowed = false ∧
    workerTranslate (some ⟨60, 50⟩) ⟨.absent, none, .absent, .absent⟩
        [] 100 none (.error []) (.error []) =
      ⟨.err 429 .rateLimited
          (checkRateLimit (some ⟨60, 50⟩) 100).1.retryAfter,
        [], (checkRateLimit (some ⟨60, 50⟩) 100).2, 0, 0, 0⟩ ∧
    (checkRateLimit none 100).1.allowed = true ∧
    workerTranslate none ⟨.absent, none, .absent, .absent⟩
        [] 100 none (.error []) (.error []) =
      ⟨.err 400 .badText none, [], (checkRateLimit none 100).2,
        0, 0, 0⟩ := by
  refine ⟨by decide, ?_, by decide, ?_⟩
  · exact validator_order_amended.1 _ _ _ _ _ _ _ (by decide)
  · exact validator_order_amended.2 _ _ _ _ _ _ _ (by decide) (by decide)

/-! ## Claim C3: missing upstream credential -/

theorem isPrefixOf_append_self :
    ∀ (p r : List Char), p.isPrefixOf (p ++ r) = true := by
  intro p r
  induction p with
  | nil => simp [List.isPrefixOf]
  | cons c cs ih => simp [List.isPrefixOf, ih]

theorem containsSub_of_prefix {p s : List Char}
    (h : p.isPrefixOf s = true) : containsSub p s = true := by
  cases s with
  | nil =>
    cases p with
    | nil => rfl
    | cons c cs => simp [List.isPrefixOf] at h
  | cons c cs => simp [containsSub, h]

theorem mapErrStatus_translateFailed (m : List Char) :
    (mapErrStatus (String.toList "Translation failed: " ++ m) = 401 ∨
      mapErrStatus (String.toList "Translation failed: " ++ m) = 429 ∨
      mapErrStatus (String.toList "Translation failed: " ++ m) = 502) ∧
    mapErrStatus (String.toList "Translation failed: " ++ m) ≠ 500 := by
  have hTF : containsSub (String.toList "Translation failed")
      (String.toList "Translation failed: " ++ m) = true := by
    apply containsSub_of_prefix
    rw [show String.toList "Translation failed: " =
      String.toList "Translation failed" ++ String.toList ": " by decide]
    rw [List.append_assoc]
    exact isPrefixOf_append_self _ _
  unfold mapErrStatus
  by_cases h1 : containsSub (String.toList "API key")
      (String.toList "Translation failed: " ++ m) = true
  · rw [if_pos h1]
    exact ⟨Or.inl rfl, by decide⟩
  · rw [if_neg h1]
    by_cases h2 : containsSub (String.toList "quota")
        (String.toList "Translation failed: " ++ m) = true
    · rw [if_pos h2]
      exact ⟨Or.inr (Or.inl rfl), by decide⟩
    · rw [if_neg h2, if_pos hTF]
      exact ⟨Or.inr (Or.inr rfl), by decide⟩

/-- C3, counterexample.  The claim also covers the Express server (its
own cited source is the server's catch-clause status mapping), and
there it is false: the server performs no credential check, so a
missing key surfaces as a thrown error from the Google client library,
which `translateText` re-throws as `Translation failed: <message>`;
the catch then maps it to 401/429/502 — never the claimed 500.
Concretely, with the library's "API key not valid" message the
response is 401, not 500. -/
theorem missing_credential_counterexample :
    (handleTranslate
        ⟨.str (String.toList "Hello"), some enStr,
          .str (String.toList "vi"), .str geminiStr⟩
        [] 0 (.error ())
        (.error (String.toList "API key not valid"))).resp =
      .err 401 .serviceError none ∧
    (handleTranslate
        ⟨.str (String.toList "Hello"), some enStr,
          .str (String.toList "vi"), .str geminiStr⟩
        [] 0 (.error ())
        (.error (String.toList "API key not valid"))).resp.status ≠
      500 := by
  exact ⟨by decide, by decide⟩

/-- C3, amended.  In the worker, a request that reaches the upstream
call (past validation, rate limiting, the short-circuit check and a
cache miss) with the API key missing is answered HTTP 500
(`"Server configuration error"`), the upstream translation capability
is never invoked (`translateCalls = 0`, hence no retry), and the
response is distinct from the 502 used for upstream failures.  The
Express server has no credential check: with a missing key the
upstream call itself fails, and because `translateText` prefixes every
thrown message with `Translation failed: `, the catch-clause maps the
failure to 401, 429 or 502 for *every* possible library message —
never to the claimed 500. -/
theorem missing_credential_amended :
    (∀ (rl : Option RLEntry) (body : RawBody) (t res : List Char)
        (cache : CacheMap) (now : Int)
        (detect translate : Except (List Char) (List Char)),
      (checkRateLimit rl now).1.allowed = true →
      body.text = .str t → (trim t).isEmpty = false →
      body.targetLang.truthy = true →
      body.provider = .str geminiStr →
      ((body.source ≠ autoStr ∧ res = body.source) ∨
        (body.source = autoStr ∧ detectLanguageWorker detect = .ok res)) →
      body.targetLang ≠ .str res →
      workerCacheGet cache
        ⟨normalizeTextWorker t, res, body.targetLang, body.provider⟩ =
          none →
      workerTranslate rl body cache now none detect translate =
        ⟨.err 500 .configError none, cache, (checkRateLimit rl now).2,
          (if body.source = autoStr then 1 else 0), 0, 1⟩) ∧
    (∀ (rl : Option RLEntry) (body : RawBody) (t res : List Char)
        (cache : CacheMap) (now : Int) (apiKey : List Char)
        (detect : Except (List Char) (List Char)) (m : List Char),
      (checkRateLimit rl now).1.allowed = true →
      body.text = .str t → (trim t).isEmpty = false →
      body.targetLang.truthy = true →
      body.provider = .str geminiStr →
      ((body.source ≠ autoStr ∧ res = body.source) ∨
        (body.source = autoStr ∧ detectLanguageWorker detect = .ok res)) →
      body.targetLang ≠ .str res →
      workerCacheGet cache
        ⟨normalizeTextWorker t, res, body.targetLang, body.provider⟩ =
          none →
      workerTranslate rl body cache now (some apiKey) detect (.error m) =
        ⟨.err 502 .serviceError none, cache, (checkRateLimit rl now).2,
          (if body.source = autoStr then 1 else 0), 1, 1⟩) ∧
    (∀ (body : RawBody) (t tg res : List Char) (cache : CacheMap)
        (now : Int) (detect : Except Unit (List Char)) (m : List Char),
      body.text = .str t → (trim t).isEmpty = false →
      body.targetLang = .str tg → tg.isEmpty = false →
      body.provider = .str geminiStr →
      (if body.source = autoStr then detectLanguageServer detect
        else body.source) = res →
      res ≠ tg →
      cacheGet cache ⟨normalizeText t, res, .str tg, .str geminiStr⟩
        now = none →
      handleTranslate body cache now detect (.error m) =
        ⟨.err (mapErrStatus (String.toList "Translation failed: " ++ m))
            .serviceError none, cache,
          (if body.source = autoStr then 1 else 0), 1, 1⟩) ∧
    (∀ m : List Char,
      mapErrStatus (String.toList "Translation failed: " ++ m) ≠ 500) ∧
    (500 : Nat) ≠ 502 := by
  refine ⟨?_, ?_, ?_, fun m => (mapErrStatus_translateFailed m).2,
    by decide⟩
  · intro rl body t res cache now detect translate hallow ht htv htgt
      hprov hsrc hne hmiss
    obtain ⟨bt, bs, btg, bp⟩ := body
    simp only at ht hprov
    subst ht hprov
    simp only [RawBody.source] at hsrc hmiss ⊢
    simp only at htgt hne
    rcases hsrc with ⟨hnauto, hres⟩ | ⟨hauto, hdet⟩
    · subst hres
      simp [workerTranslate, workerRespond, RawBody.source, hallow, htv,
        htgt, hnauto, hne, hmiss]
    · simp [workerTranslate, workerRespond, RawBody.source, hallow, htv,
        htgt, hauto, hdet, hne, hmiss]
  · intro rl body t res cache now apiKey detect m hallow ht htv htgt
      hprov hsrc hne hmiss
    obtain ⟨bt, bs, btg, bp⟩ := body
    simp only at ht hprov
    subst ht hprov
    simp only [RawBody.source] at hsrc hmiss ⊢
    simp only at htgt hne
    rcases hsrc with ⟨hnauto, hres⟩ | ⟨hauto, hdet⟩
    · subst hres
      simp [workerTranslate, workerRespond, RawBody.source, hallow, htv,
        htgt, hnauto, hne, hmiss]
    · simp [workerTranslate, workerRespond, RawBody.source, hallow, htv,
        htgt, hauto, hdet, hne, hmiss]
  · intro body t tg res cache now detect m ht htv htg htgv hprov hres
      hne hmiss
    obtain ⟨bt, bs, btg, bp⟩ := body
    simp only at ht htg hprov
    subst ht htg hprov
    simp only [RawBody.source] at hres
    simp [handleTranslate, RawBody.source, htv, htgv, hres, hne, hmiss,
      translateTextServer]

/-- C3, witness: a worker request with no API key is answered 500 with
zero upstream calls; with a key and a failing upstream, 502; the same
server request with a missing-key library failure is answered 401 (the
message names the API key), which differs from 500. -/
theorem missing_credential_amended_witness :
    workerTranslate none
        ⟨.str (String.toList "Hello"), some enStr,
          .str (String.toList "vi"), .str geminiStr⟩
        [] 0 none (.error []) (.ok (String.toList "T")) =
      ⟨.err 500 .configError none, [], some ⟨1, 0⟩, 0, 0, 1⟩ ∧
    workerTranslate none
        ⟨.str (String.toList "Hello"), some enStr,
          .str (String.toList "vi"), .str geminiStr⟩
        [] 0 (some (String.toList "k")) (.error [])
        (.error (String.toList "boom")) =
      ⟨.err 502 .serviceError none, [], some ⟨1, 0⟩, 0, 1, 1⟩ ∧
    handleTranslate
        ⟨.str (String.toList "Hello"), some enStr,
          .str (String.toList "vi"), .str geminiStr⟩
        [] 0 (.error ())
        (.error (String.toList "API key not valid")) =
      ⟨.err 401 .serviceError none, [], 0, 1, 1⟩ ∧
    mapErrStatus (String.toList "Translation failed: " ++
      String.toList "API key not valid") ≠ 500 := by
  refine ⟨?_, ?_, ?_, missing_credential_amended.2.2.2.1 _⟩
  · have := missing_credential_amended.1 none
      ⟨.str (String.toList "Hello"), some enStr,
        .str (String.toList "vi"), .str geminiStr⟩
      (String.toList "Hello") enStr [] 0 (.error [])
      (.ok (String.toList "T")) (by decide) rfl (by decide) (by decide)
      rfl (Or.inl ⟨by decide, by decide⟩) (by decide) (by decide)
    simpa using this
  · have := missing_credential_amended.2.1 none
      ⟨.str (String.toList "Hello"), some enStr,
        .str (String.toList "vi"), .str geminiStr⟩
      (String.toList "Hello") enStr [] 0 (String.toList "k")
      (.error []) (String.toList "boom") (by decide) rfl (by decide)
      (by decide) rfl (Or.inl ⟨by decide, by decide⟩) (by decide)
      (by decide)
    simpa using this
  · have := missing_credential_amended.2.2.1
      ⟨.str (String.toList "Hello"), some enStr,
        .str (String.toList "vi"), .str geminiStr⟩
      (String.toList "Hello") (String.toList "vi") enStr [] 0
      (.error ()) (String.toList "API key not valid") rfl (by decide)
      rfl (by decide) rfl (by decide) (by decide) (by decide)
    rw [this]
    have : mapErrStatus (String.toList "Translation failed: " ++
        String.toList "API key not valid") = 401 := by decide
    rw [this]
    decide

/-! ## Claim C2: non-fatal language detection -/

theorem handleTranslate_detect_congr (body : RawBody) (cache : CacheMap)
    (now : Int) (d₁ d₂ : Except Unit (List Char))
    (translate : Except (List Char) (List Char))
    (h : detectLanguageServer d₁ = detectLanguageServer d₂) :
    handleTranslate body cache now d₁ translate =
      handleTranslate body cache now d₂ translate := by
  simp only [handleTranslate, h]

theorem detectLanguageServer_failed {d : Except Unit (List Char)}
    (h : detectFailedServer d = true) : detectLanguageServer d = enStr := by
  cases d with
  | error e => rfl
  | ok s =>
    simp only [detectFailedServer] at h
    simp at h
    simp [detectLanguageServer, h]

/-- C2, counterexample.  "Detection failure is never surfaced to the
caller as an error response" is false for the worker: its
`detectLanguage` has no `try`/`catch`, so a failed detection response
throws and the surrounding handler answers 502.  Concretely, a valid
`sourceLang: "auto"` request whose detection capability fails is
answered `502 serviceError` instead of being translated with the
fallback `"en"`. -/
theorem detection_fallback_counterexample :
    (workerTranslate none
        ⟨.str (String.toList "Hello"), none, .str (String.toList "vi"),
          .str geminiStr⟩
        [] 0 (some (String.toList "k"))
        (.error (String.toList "detection down"))
        (.ok (String.toList "T"))).resp =
      .err 502 .serviceError none ∧
    (workerTranslate none
        ⟨.str (String.toList "Hello"), none, .str (String.toList "vi"),
          .str geminiStr⟩
        [] 0 (some (String.toList "k"))
        (.error (String.toList "detection down"))
        (.ok (String.toList "T"))).resp.status ≠ 200 := by
  exact ⟨by decide, by decide⟩

/-- C2, amended.  In the Express server the claim holds in full: on a
thrown detection error or a non-conforming detection response the
resolved source language is `"en"` and the handler behaves exactly as
if detection had returned `"en"` — no detection failure can surface.
In the worker only the non-conforming-response half holds
(`detectLanguage` falls back to `"en"`); a thrown detection error
surfaces as a 502 response. -/
theorem detection_fallback_amended :
    (∀ (d : Except Unit (List Char)), detectFailedServer d = true →
      detectLanguageServer d = enStr) ∧
    (∀ (body : RawBody) (cache : CacheMap) (now : Int)
        (d : Except Unit (List Char))
        (translate : Except (List Char) (List Char)),
      detectFailedServer d = true →
      handleTranslate body cache now d translate =
        handleTranslate body cache now (.ok enStr) translate) ∧
    (∀ (s : List Char),
      isTwoLetterLower ((trim s).map Char.toLower) = false →
      detectLanguageWorker (.ok s) = .ok enStr) ∧
    (∀ (rl : Option RLEntry) (body : RawBody) (t : List Char)
        (cache : CacheMap) (now : Int) (apiKey : Option (List Char))
        (m : List Char)
        (translate : Except (List Char) (List Char)),
      (checkRateLimit rl now).1.allowed = true →
      body.text = .str t → (trim t).isEmpty = false →
      body.targetLang.truthy = true →
      body.provider = .str geminiStr →
      body.source = autoStr →
      workerTranslate rl body cache now apiKey (.error m) translate =
        ⟨.err 502 .serviceError none, cache, (checkRateLimit rl now).2,
          1, 0, 0⟩) := by
  refine ⟨?_, ?_, ?_, ?_⟩
  · exact fun d h => detectLanguageServer_failed h
  · intro body cache now d translate h
    apply handleTranslate_detect_congr
    rw [detectLanguageServer_failed h]
    decide
  · intro s h
    simp [detectLanguageWorker, h]
  · intro rl body t cache now apiKey m translate hallow ht htv htgt hprov
      hauto
    obtain ⟨bt, bs, btg, bp⟩ := body
    simp only at ht hprov
    subst ht hprov
    simp only [RawBody.source] at hauto
    simp only at htgt
    simp [workerTranslate, RawBody.source, hallow, htv, htgt, hauto,
      detectLanguageWorker]

/-- C2, witness for the amended theorem: a thrown server-side detection
error leaves the server's pipeline outcome identical to detection
returning `"en"` (concrete auto-detect request answered 200 from the
upstream result), and a concrete non-conforming worker detection
response falls back to `"en"`, while a thrown worker detection error is
answered 502. -/
theorem detection_fallback_amended_witness :
    detectFailedServer (Except.error ()) = true ∧
    handleTranslate
        ⟨.str (String.toList "Hello"), none, .str (String.toList "vi"),
          .str geminiStr⟩
        [] 0 (.error ()) (.ok (String.toList "T")) =
      handleTranslate
        ⟨.str (String.toList "Hello"), none, .str (String.toList "vi"),
          .str geminiStr⟩
        [] 0 (.ok enStr) (.ok (String.toList "T")) ∧
    detectLanguageWorker (.ok (String.toList "English!")) = .ok enStr ∧
    workerTranslate none
        ⟨.str (String.toList "Hello"), none, .str (String.toList "vi"),
          .str geminiStr⟩
        [] 0 (some (String.toList "k"))
        (.error (String.toList "down")) (.ok (String.toList "T")) =
      ⟨.err 502 .serviceError none, [], some ⟨1, 0⟩, 1, 0, 0⟩ := by
  refine ⟨by decide, ?_, ?_, ?_⟩
  · exact detection_fallback_amended.2.1 _ [] 0 (.error ())
      (.ok (String.toList "T")) (by decide)
  · exact detection_fallback_amended.2.2.1 (String.toList "English!")
      (by decide)
  · have := detection_fallback_amended.2.2.2 none
      ⟨.str (String.toList "Hello"), none, .str (String.toList "vi"),
        .str geminiStr⟩
      (String.toList "Hello") [] 0 (some (String.toList "k"))
      (String.toList "down") (.ok (String.toList "T")) (by decide) rfl
      (by decide) (by decide) rfl (by decide)
    simpa using this

/-! ## Claim C9: cache round-trip -/

theorem lookupCache_putCache (m : CacheMap) (k : CacheKey) (e : CacheEntry) :
    lookupCache (putCache m k e) k = some e := by
  unfold lookupCache putCache
  rw [List.find?_cons_of_pos _ (by simp)]
  rfl

/-- C9, counterexample.  The claim asserts `cached: false` on the first
response of *every* request that succeeds without a short-circuit, but
a request whose key is already validly cached succeeds without a
short-circuit with `cached: true` on its first response: here the cache
already holds `"T"` for the request, and the response is
`200 {translation: "T", cached: true}`. -/
theorem cache_round_trip_counterexample :
    (handleTranslate
        ⟨.str (String.toList "Hello"), some enStr,
          .str (String.toList "vi"), .str geminiStr⟩
        [(⟨normalizeText (String.toList "Hello"), enStr,
            .str (String.toList "vi"), .str geminiStr⟩,
          ⟨String.toList "T", 0⟩)]
        10 (.error ()) (.ok (String.toList "T2"))).resp =
      .ok (String.toList "T") true enStr ∧
    (handleTranslate
        ⟨.str (String.toList "Hello"), some enStr,
          .str (String.toList "vi"), .str geminiStr⟩
        [(⟨normalizeText (String.toList "Hello"), enStr,
            .str (String.toList "vi"), .str geminiStr⟩,
          ⟨String.toList "T", 0⟩)]
        10 (.error ()) (.ok (String.toList "T2"))).resp.status = 200 ∧
    enStr ≠ String.toList "vi" ∧
    (handleTranslate
        ⟨.str (String.toList "Hello"), some enStr,
          .str (String.toList "vi"), .str geminiStr⟩
        [(⟨normalizeText (String.toList "Hello"), enStr,
            .str (String.toList "vi"), .str geminiStr⟩,
          ⟨String.toList "T", 0⟩)]
        10 (.error ()) (.ok (String.toList "T2"))).resp.cachedFlag ≠
      some false := by
  refine ⟨by decide, by decide, by decide, by decide⟩

theorem workerCacheGet_putCache (m : CacheMap) (k : CacheKey)
    (tr : List Char) (ts : Int) :
    workerCacheGet (putCache m k ⟨tr, ts⟩) k =
      if tr.isEmpty = true then none else some ⟨tr, ts⟩ := by
  unfold workerCacheGet
  rw [lookupCache_putCache]

/-- C9, amended.  For every validated request that succeeds without a
short-circuit *and whose cache lookup misses*, the response has
`cached: false`, and immediately repeating the identical request
yields `cached: true` with the same `translation` value — in the
server for any repeat still within the TTL, and in the worker whenever
the stored translation is non-empty.  In the worker an upstream result
that trims to the empty string is stored but its
`cached && cached.translation` guard re-reads it as a miss, so the
repeat is answered with `cached: false` (or an error), never
`cached: true`. -/
theorem cache_round_trip_amended :
    (∀ (body : RawBody) (t tg res tr : List Char) (cache : CacheMap)
      (t1 t2 : Int) (detect : Except Unit (List Char))
      (translate translate2 : Except (List Char) (List Char)),
      body.text = .str t → (trim t).isEmpty = false →
      body.targetLang = .str tg → tg.isEmpty = false →
      body.provider = .str geminiStr →
      (if body.source = autoStr then detectLanguageServer detect
        else body.source) = res →
      res ≠ tg →
      cacheGet cache ⟨normalizeText t, res, .str tg, .str geminiStr⟩ t1 =
        none →
      translateTextServer translate = .ok tr →
      t2 - t1 < CACHE_TTL_MS →
      (handleTranslate body cache t1 detect translate).resp =
        .ok tr false res ∧
      (handleTranslate body
          (handleTranslate body cache t1 detect translate).cache t2
          detect translate2).resp =
        .ok tr true res) ∧
    (∀ (rl1 rl2 : Option RLEntry) (body : RawBody)
        (t res s tr : List Char) (cache : CacheMap) (now1 now2 : Int)
        (apiKey : List Char) (apiKey2 : Option (List Char))
        (detect translate2 : Except (List Char) (List Char)),
      (checkRateLimit rl1 now1).1.allowed = true →
      (checkRateLimit rl2 now2).1.allowed = true →
      body.text = .str t → (trim t).isEmpty = false →
      body.targetLang.truthy = true →
      body.provider = .str geminiStr →
      ((body.source ≠ autoStr ∧ res = body.source) ∨
        (body.source = autoStr ∧ detectLanguageWorker detect = .ok res)) →
      body.targetLang ≠ .str res →
      workerCacheGet cache
        ⟨normalizeTextWorker t, res, body.targetLang, body.provider⟩ =
          none →
      trim s = tr → tr.isEmpty = false →
      (workerTranslate rl1 body cache now1 (some apiKey) detect
          (.ok s)).resp = .ok tr false res ∧
      (workerTranslate rl2 body
          (workerTranslate rl1 body cache now1 (some apiKey) detect
            (.ok s)).cache
          now2 apiKey2 detect translate2).resp = .ok tr true res) ∧
    (∀ (rl1 rl2 : Option RLEntry) (body : RawBody)
        (t res s tr : List Char) (cache : CacheMap) (now1 now2 : Int)
        (apiKey : List Char) (apiKey2 : Option (List Char))
        (detect translate2 : Except (List Char) (List Char)),
      (checkRateLimit rl1 now1).1.allowed = true →
      (checkRateLimit rl2 now2).1.allowed = true →
      body.text = .str t → (trim t).isEmpty = false →
      body.targetLang.truthy = true →
      body.provider = .str geminiStr →
      ((body.source ≠ autoStr ∧ res = body.source) ∨
        (body.source = autoStr ∧ detectLanguageWorker detect = .ok res)) →
      body.targetLang ≠ .str res →
      workerCacheGet cache
        ⟨normalizeTextWorker t, res, body.targetLang, body.provider⟩ =
          none →
      trim s = tr → tr.isEmpty = true →
      (workerTranslate rl1 body cache now1 (some apiKey) detect
          (.ok s)).resp = .ok tr false res ∧
      (workerTranslate rl2 body
          (workerTranslate rl1 body cache now1 (some apiKey) detect
            (.ok s)).cache
          now2 apiKey2 detect translate2).resp.cachedFlag ≠
        some true) := by
  refine ⟨?_, ?_, ?_⟩
  · intro body t tg res tr cache t1 t2 detect translate translate2 ht htv
      htg htgv hprov hres hne hmiss htr httl
    obtain ⟨bt, bs, btg, bp⟩ := body
    simp only at ht htg hprov
    subst ht htg hprov
    simp only [RawBody.source] at hres
    have hout1 : handleTranslate
        ⟨.str t, bs, .str tg, .str geminiStr⟩ cache t1 detect translate =
        ⟨.ok tr false res,
          putCache cache ⟨normalizeText t, res, .str tg, .str geminiStr⟩
            ⟨tr, t1⟩,
          (if bs.getD autoStr = autoStr then 1 else 0), 1, 1⟩ := by
      simp [handleTranslate, RawBody.source, htv, htgv, hres, hne, hmiss,
        htr]
    refine ⟨by rw [hout1], ?_⟩
    rw [hout1]
    have hhit : cacheGet
        (putCache cache ⟨normalizeText t, res, .str tg, .str geminiStr⟩
          ⟨tr, t1⟩)
        ⟨normalizeText t, res, .str tg, .str geminiStr⟩ t2 =
        some ⟨tr, t1⟩ := by
      unfold cacheGet
      rw [lookupCache_putCache]
      simp [httl]
    simp [handleTranslate, RawBody.source, htv, htgv, hres, hne, hhit]
  · intro rl1 rl2 body t res s tr cache now1 now2 apiKey apiKey2 detect
      translate2 hallow1 hallow2 ht htv htgt hprov hsrc hne hmiss hstr hs
    obtain ⟨bt, bs, btg, bp⟩ := body
    simp only at ht hprov
    subst ht hprov
    subst hstr
    simp only [RawBody.source] at hsrc hmiss ⊢
    simp only at htgt hne
    have hout1 : workerTranslate rl1 ⟨.str t, bs, btg, .str geminiStr⟩
        cache now1 (some apiKey) detect (.ok s) =
        ⟨.ok (trim s) false res,
          putCache cache
            ⟨normalizeTextWorker t, res, btg, .str geminiStr⟩
            ⟨trim s, now1⟩,
          (checkRateLimit rl1 now1).2,
          (if bs.getD autoStr = autoStr then 1 else 0), 1, 1⟩ := by
      rcases hsrc with ⟨hnauto, hres⟩ | ⟨hauto, hdet⟩
      · subst hres
        simp [workerTranslate, workerRespond, RawBody.source, hallow1,
          htv, htgt, hnauto, hne, hmiss]
      · simp [workerTranslate, workerRespond, RawBody.source, hallow1,
          htv, htgt, hauto, hdet, hne, hmiss]
    refine ⟨by rw [hout1], ?_⟩
    rw [hout1]
    have hhit : workerCacheGet
        (putCache cache ⟨normalizeTextWorker t, res, btg, .str geminiStr⟩
          ⟨trim s, now1⟩)
        ⟨normalizeTextWorker t, res, btg, .str geminiStr⟩ =
        some ⟨trim s, now1⟩ := by
      rw [workerCacheGet_putCache]
      simp [hs]
    rcases hsrc with ⟨hnauto, hres⟩ | ⟨hauto, hdet⟩
    · subst hres
      simp [workerTranslate, workerRespond, RawBody.source, hallow2,
        htv, htgt, hnauto, hne, hhit]
    · simp [workerTranslate, workerRespond, RawBody.source, hallow2,
        htv, htgt, hauto, hdet, hne, hhit]
  · intro rl1 rl2 body t res s tr cache now1 now2 apiKey apiKey2 detect
      translate2 hallow1 hallow2 ht htv htgt hprov hsrc hne hmiss hstr hs
    obtain ⟨bt, bs, btg, bp⟩ := body
    simp only at ht hprov
    subst ht hprov
    subst hstr
    simp only [RawBody.source] at hsrc hmiss ⊢
    simp only at htgt hne
    have hout1 : workerTranslate rl1 ⟨.str t, bs, btg, .str geminiStr⟩
        cache now1 (some apiKey) detect (.ok s) =
        ⟨.ok (trim s) false res,
          putCache cache
            ⟨normalizeTextWorker t, res, btg, .str geminiStr⟩
            ⟨trim s, now1⟩,
          (checkRateLimit rl1 now1).2,
          (if bs.getD autoStr = autoStr then 1 else 0), 1, 1⟩ := by
      rcases hsrc with ⟨hnauto, hres⟩ | ⟨hauto, hdet⟩
      · subst hres
        simp [workerTranslate, workerRespond, RawBody.source, hallow1,
          htv, htgt, hnauto, hne, hmiss]
      · simp [workerTranslate, workerRespond, RawBody.source, hallow1,
          htv, htgt, hauto, hdet, hne, hmiss]
    refine ⟨by rw [hout1], ?_⟩
    rw [hout1]
    have hmiss2 : workerCacheGet
        (putCache cache ⟨normalizeTextWorker t, res, btg, .str geminiStr⟩
          ⟨trim s, now1⟩)
        ⟨normalizeTextWorker t, res, btg, .str geminiStr⟩ = none := by
      rw [workerCacheGet_putCache]
      simp [hs]
    rcases hsrc with ⟨hnauto, hres⟩ | ⟨hauto, hdet⟩
    · subst hres
      cases apiKey2 with
      | none =>
        simp [workerTranslate, workerRespond, RawBody.source, hallow2,
          htv, htgt, hnauto, hne, hmiss2, Resp.cachedFlag]
      | some k2 =>
        cases translate2 with
        | error m2 =>
          simp [workerTranslate, workerRespond, RawBody.source, hallow2,
            htv, htgt, hnauto, hne, hmiss2, Resp.cachedFlag]
        | ok s2 =>
          simp [workerTranslate, workerRespond, RawBody.source, hallow2,
            htv, htgt, hnauto, hne, hmiss2, Resp.cachedFlag]
    · cases apiKey2 with
      | none =>
        simp [workerTranslate, workerRespond, RawBody.source, hallow2,
          htv, htgt, hauto, hdet, hne, hmiss2, Resp.cachedFlag]
      | some k2 =>
        cases translate2 with
        | error m2 =>
          simp [workerTranslate, workerRespond, RawBody.source, hallow2,
            htv, htgt, hauto, hdet, hne, hmiss2, Resp.cachedFlag]
        | ok s2 =>
          simp [workerTranslate, workerRespond, RawBody.source, hallow2,
            htv, htgt, hauto, hdet, hne, hmiss2, Resp.cachedFlag]

/-- C9, witness for the amended theorem: the server request
`{text: "Hello world", sourceLang: "en", targetLang: "vi",
provider: "gemini"}` against an empty cache yields `cached: false` with
translation `"Xin chao"` and, repeated one second later, `cached: true`
with the identical translation; the analogous worker request behaves
the same; and a worker upstream result trimming to the empty string is
re-read as a miss, the repeat not being served `cached: true`. -/
theorem cache_round_trip_amended_witness :
    ((handleTranslate
        ⟨.str (String.toList "Hello world"), some enStr,
          .str (String.toList "vi"), .str geminiStr⟩
        [] 0 (.error ()) (.ok (String.toList "Xin chao"))).resp =
      .ok (String.toList "Xin chao") false enStr ∧
    (handleTranslate
        ⟨.str (String.toList "Hello world"), some enStr,
          .str (String.toList "vi"), .str geminiStr⟩
        (handleTranslate
          ⟨.str (String.toList "Hello world"), some enStr,
            .str (String.toList "vi"), .str geminiStr⟩
          [] 0 (.error ()) (.ok (String.toList "Xin chao"))).cache
        1000 (.error ()) (.error (String.toList "down"))).resp =
      .ok (String.toList "Xin chao") true enStr) ∧
    ((workerTranslate none
        ⟨.str (String.toList "Hello world"), some enStr,
          .str (String.toList "vi"), .str geminiStr⟩
        [] 0 (some (String.toList "k")) (.error [])
        (.ok (String.toList "Xin chao"))).resp =
      .ok (String.toList "Xin chao") false enStr ∧
    (workerTranslate none
        ⟨.str (String.toList "Hello world"), some enStr,
          .str (String.toList "vi"), .str geminiStr⟩
        (workerTranslate none
          ⟨.str (String.toList "Hello world"), some enStr,
            .str (String.toList "vi"), .str geminiStr⟩
          [] 0 (some (String.toList "k")) (.error [])
          (.ok (String.toList "Xin chao"))).cache
        1000 (some (String.toList "k")) (.error [])
        (.error (String.toList "down"))).resp =
      .ok (String.toList "Xin chao") true enStr) ∧
    (workerTranslate none
        ⟨.str (String.toList "Hello world"), some enStr,
          .str (String.toList "vi"), .str geminiStr⟩
        (workerTranslate none
          ⟨.str (String.toList "Hello world"), some enStr,
            .str (String.toList "vi"), .str geminiStr⟩
          [] 0 (some (String.toList "k")) (.error [])
          (.ok (String.toList "  "))).cache
        1000 (some (String.toList "k")) (.error [])
        (.ok (String.toList "T2"))).resp.cachedFlag ≠ some true := by
  refine ⟨?_, ?_, ?_⟩
  · exact cache_round_trip_amended.1 _ (String.toList "Hello world")
      (String.toList "vi") enStr (String.toList "Xin chao") [] 0 1000
      (.error ()) (.ok (String.toList "Xin chao"))
      (.error (String.toList "down")) rfl (by decide) rfl (by decide)
      rfl (by decide) (by decide) (by decide) rfl (by decide)
  · exact cache_round_trip_amended.2.1 none none _
      (String.toList "Hello world") enStr (String.toList "Xin chao")
      (String.toList "Xin chao") [] 0 1000 (String.toList "k")
      (some (String.toList "k")) (.error [])
      (.error (String.toList "down")) (by decide) (by decide) rfl
      (by decide) (by decide) rfl (Or.inl ⟨by decide, by decide⟩)
      (by decide) (by decide) rfl (by decide)
  · exact (cache_round_trip_amended.2.2 none none _
      (String.toList "Hello world") enStr (String.toList "  ") []
      [] 0 1000 (String.toList "k") (some (String.toList "k"))
      (.error []) (.ok (String.toList "T2")) (by decide) (by decide) rfl
      (by decide) (by decide) rfl (Or.inl ⟨by decide, by decide⟩)
      (by decide) (by decide) rfl (by decide)).2

/-! ## Claim C4: the fixed-window rate limiter -/

theorem checkRateLimit_step_allowed {c : Nat} {t v : Int}
    (hwin : v - t ≤ RATE_LIMIT_WINDOW * 1000) (hcnt : c < RATE_LIMIT_MAX) :
    checkRateLimit (some ⟨c, t⟩) v =
      (⟨true, (RATE_LIMIT_MAX : Int) - (c : Int) - 1, none⟩,
        some ⟨c + 1, t⟩) := by
  simp only [checkRateLimit]
  rw [if_neg (by simp only [RATE_LIMIT_WINDOW] at hwin ⊢; omega),
    if_neg (by omega)]

theorem runRateLimit_within :
    ∀ (ts : List Int) (c : Nat) (t : Int),
      c + ts.length ≤ RATE_LIMIT_MAX →
      (∀ v ∈ ts, v - t ≤ RATE_LIMIT_WINDOW * 1000) →
      runRateLimit (some ⟨c, t⟩) ts =
        (List.replicate ts.length true, some ⟨c + ts.length, t⟩) := by
  intro ts
  induction ts with
  | nil => intro c t _ _; simp [runRateLimit]
  | cons v vs ih =>
    intro c t hc hv
    rw [List.length_cons] at hc
    have hstep := checkRateLimit_step_allowed
      (hv v (List.mem_cons_self _ _)) (show c < RATE_LIMIT_MAX by omega)
    have hrest := ih (c + 1) t (by omega)
      (fun w hw => hv w (List.mem_cons_of_mem _ hw))
    have harith : c + 1 + vs.length = c + (vs.length + 1) := by omega
    simp only [runRateLimit, hstep, hrest, List.length_cons,
      List.replicate_succ]
    rw [harith]

/-- C4, counterexample.  The claim resets the window when
`now - windowStart >= windowDuration`, but the code's test is the
strict `data.windowStart < now - windowDuration`: at exactly
`now - windowStart = 60000` ms with a full window, the claim's
algorithm starts a fresh window and allows the request while
`checkRateLimit` rejects it. -/
theorem rate_limit_boundary_counterexample :
    (60000 : Int) - 0 ≥ RATE_LIMIT_WINDOW * 1000 ∧
    (specCheckRateLimit (some ⟨60, 0⟩) 60000).1.allowed = true ∧
    (checkRateLimit (some ⟨60, 0⟩) 60000).1.allowed = false ∧
    checkRateLimit (some ⟨60, 0⟩) 60000 ≠
      specCheckRateLimit (some ⟨60, 0⟩) 60000 := by
  refine ⟨by decide, by decide, by decide, by decide⟩

/-- C4, amended.  `checkRateLimit` implements a fixed window whose
reset condition is the strict `now - windowStart > windowDuration`
(not `>=` as claimed); with that one change the claimed algorithm is
exact: on a missing entry a new window starts with count 1 and the
request is allowed; a rejection always carries
`retryAfterSeconds = windowDuration` and `remaining = 0`; from a fresh
client the first `max` requests within one window are all allowed and
the `(max+1)`th within the window is rejected (the worker answering it
429 with `retryAfter` present); and a request issued strictly after
the window duration has elapsed is allowed again. -/
theorem rate_limit_fixed_window_amended :
    (∀ (st : Option RLEntry) (now : Int),
      checkRateLimit st now = strictCheckRateLimit st now) ∧
    (checkRateLimit none 0 =
      (⟨true, (RATE_LIMIT_MAX : Int) - 1, none⟩, some ⟨1, 0⟩)) ∧
    (∀ (st : Option RLEntry) (now : Int),
      (checkRateLimit st now).1.allowed = false →
      (checkRateLimit st now).1 = ⟨false, 0, some RATE_LIMIT_WINDOW⟩) ∧
    (∀ (t u : Int) (ts : List Int),
      ts.length = RATE_LIMIT_MAX - 1 →
      (∀ v ∈ ts, v - t ≤ RATE_LIMIT_WINDOW * 1000) →
      u - t ≤ RATE_LIMIT_WINDOW * 1000 →
      (checkRateLimit none t).1.allowed = true ∧
      (runRateLimit (checkRateLimit none t).2 ts).1 =
        List.replicate (RATE_LIMIT_MAX - 1) true ∧
      (checkRateLimit
        (runRateLimit (checkRateLimit none t).2 ts).2 u).1.allowed =
          false) ∧
    (∀ (c : Nat) (t now : Int), now - t > RATE_LIMIT_WINDOW * 1000 →
      (checkRateLimit (some ⟨c, t⟩) now).1.allowed = true) ∧
    (∀ (rl : Option RLEntry) (body : RawBody) (cache : CacheMap)
        (now : Int) (apiKey : Option (List Char))
        (detect translate : Except (List Char) (List Char)),
      (checkRateLimit rl now).1.allowed = false →
      (workerTranslate rl body cache now apiKey detect translate).resp =
        .err 429 .rateLimited (some RATE_LIMIT_WINDOW)) := by
  have hrej : ∀ (st : Option RLEntry) (now : Int),
      (checkRateLimit st now).1.allowed = false →
      (checkRateLimit st now).1 = ⟨false, 0, some RATE_LIMIT_WINDOW⟩ := by
    intro st now h
    cases st with
    | none => simp [checkRateLimit] at h
    | some d =>
      simp only [checkRateLimit] at h ⊢
      by_cases h1 : d.windowStart < now - RATE_LIMIT_WINDOW * 1000
      · rw [if_pos h1] at h
        simp at h
      · rw [if_neg h1] at h ⊢
        by_cases h2 : d.count ≥ RATE_LIMIT_MAX
        · rw [if_pos h2]
        · rw [if_neg h2] at h
          simp at h
  refine ⟨?_, rfl, hrej, ?_, ?_, ?_⟩
  · intro st now
    cases st with
    | none => rfl
    | some d =>
      simp only [checkRateLimit, strictCheckRateLimit]
      by_cases h1 : d.windowStart < now - RATE_LIMIT_WINDOW * 1000
      · rw [if_pos h1, if_pos
          (show now - d.windowStart > RATE_LIMIT_WINDOW * 1000 by omega)]
      · rw [if_neg h1, if_neg
          (show ¬ now - d.windowStart > RATE_LIMIT_WINDOW * 1000 by omega)]
  · intro t u ts hlen hv hu
    have hfirst : checkRateLimit none t =
        (⟨true, (RATE_LIMIT_MAX : Int) - 1, none⟩, some ⟨1, t⟩) := rfl
    have hrun := runRateLimit_within ts 1 t
      (by rw [hlen]; simp [RATE_LIMIT_MAX]) hv
    refine ⟨by rw [hfirst], ?_, ?_⟩
    · rw [hfirst, hrun, hlen]
    · rw [hfirst, hrun, hlen]
      simp only [checkRateLimit]
      rw [if_neg (by simp only [RATE_LIMIT_WINDOW] at hu ⊢; omega),
        if_pos (by simp [RATE_LIMIT_MAX])]
  · intro c t now h
    simp only [checkRateLimit]
    rw [if_pos (by simp only [RATE_LIMIT_WINDOW] at h ⊢; omega)]
  · intro rl body cache now apiKey detect translate hdeny
    have := hrej rl now hdeny
    simp [workerTranslate, hdeny, this]

/-- C4, witness for the amended theorem: from a fresh client at time 0,
the first request and the following 59 requests at time 0 are all
allowed, the 61st request at time 0 is rejected, a request
60001 ms after the window start is allowed again, and the worker
answers a rejected request 429 with `retryAfter` present. -/
theorem rate_limit_fixed_window_amended_witness :
    ((checkRateLimit none 0).1.allowed = true ∧
      (runRateLimit (checkRateLimit none 0).2
          (List.replicate 59 (0 : Int))).1 =
        List.replicate (RATE_LIMIT_MAX - 1) true ∧
      (checkRateLimit
        (runRateLimit (checkRateLimit none 0).2
          (List.replicate 59 (0 : Int))).2 0).1.allowed = false) ∧
    (checkRateLimit (some ⟨60, 0⟩) 60001).1.allowed = true ∧
    (workerTranslate (some ⟨60, 0⟩) ⟨.absent, none, .absent, .absent⟩
        [] 30000 none (.error []) (.error [])).resp =
      .err 429 .rateLimited (some RATE_LIMIT_WINDOW) := by
  refine ⟨?_, ?_, ?_⟩
  · exact rate_limit_fixed_window_amended.2.2.2.1 0 0
      (List.replicate 59 (0 : Int)) (by decide)
      (by intro v hv; simp at hv; subst hv; decide) (by decide)
  · exact rate_limit_fixed_window_amended.2.2.2.2.1 60 0 60001 (by decide)
  · exact rate_limit_fixed_window_amended.2.2.2.2.2 _ _ _ _ _ _ _
      (by decide)

end ProxyServer
